import Mathlib

/-!
Verification development for the WhatsApp sales-bot repository
(conversational transaction engine: identity normalization, fuzzy
similarity, customer resolution, ledger numbering, dialogue state).

The definitions below are a shallow embedding of the TypeScript source:

* `src/utils/formatters` (`normalizeString`, `stringSimilarity`),
* `src/features/sales/CustomerService.ts`,
* `src/features/sales/SalesService.ts`,
* `src/features/sales/SalesPlugin.ts`,
* `src/agent/Agent.ts` (expiry clearing and intent routing),
* the price-reconciliation block of `IntentExtractor.processIntent`.

Modelling conventions, stated once here:

* JS numbers are modelled as `ℚ` (exact arithmetic; IEEE rounding is not
  modelled), JS `Date` values as `Int` epoch milliseconds.
* JS strings are Lean `String`s (lists of unicode scalars).  The
  `String.prototype.normalize("NFD")` call is modelled by a character
  table covering the Latin letters with diacritics that the application
  (Portuguese text) can meet; characters outside the table decompose to
  themselves.  `toLowerCase` is modelled for ASCII plus the same table.
* JS truthiness of optional numbers / strings is modelled explicitly
  (`none` and `0` / `""` are falsy).
* Thrown exceptions are modelled with `Except`; a caught exception
  produces the catch-handler's result.
* Free-text replies are modelled as their list of text chunks
  (`List String`), one chunk per string literal appended by the source.
* The Prisma `$transaction` around sale-number allocation is modelled as
  an atomic step, which is the semantics the source requests from the
  persistence layer.
-/

/-- `\s` in the source's regexes: whitespace characters. -/
def isWsChar (c : Char) : Bool :=
  c = ' ' ∨ c = '\t' ∨ c = '\n' ∨ c = '\r'

/-- `String.prototype.toLowerCase`, modelled for ASCII letters and the
Latin-1 letters with diacritics used by the application. -/
def jsToLower (c : Char) : Char :=
  if 'A' ≤ c ∧ c ≤ 'Z' then Char.ofNat (c.toNat + 32)
  else if c = 'Á' then 'á' else if c = 'À' then 'à' else if c = 'Â' then 'â'
  else if c = 'Ã' then 'ã' else if c = 'Ä' then 'ä'
  else if c = 'É' then 'é' else if c = 'È' then 'è' else if c = 'Ê' then 'ê'
  else if c = 'Ë' then 'ë'
  else if c = 'Í' then 'í' else if c = 'Ì' then 'ì' else if c = 'Î' then 'î'
  else if c = 'Ï' then 'ï'
  else if c = 'Ó' then 'ó' else if c = 'Ò' then 'ò' else if c = 'Ô' then 'ô'
  else if c = 'Õ' then 'õ' else if c = 'Ö' then 'ö'
  else if c = 'Ú' then 'ú' else if c = 'Ù' then 'ù' else if c = 'Û' then 'û'
  else if c = 'Ü' then 'ü'
  else if c = 'Ç' then 'ç' else if c = 'Ñ' then 'ñ'
  else c

/-- Unicode NFD decomposition, modelled for the lower-case Latin letters
with diacritics used by the application (the only ones that can remain
after `jsToLower`); other characters decompose to themselves. -/
def nfdChar (c : Char) : List Char :=
  if c = 'á' then ['a', '́'] else if c = 'à' then ['a', '̀']
  else if c = 'â' then ['a', '̂'] else if c = 'ã' then ['a', '̃']
  else if c = 'ä' then ['a', '̈']
  else if c = 'é' then ['e', '́'] else if c = 'è' then ['e', '̀']
  else if c = 'ê' then ['e', '̂'] else if c = 'ë' then ['e', '̈']
  else if c = 'í' then ['i', '́'] else if c = 'ì' then ['i', '̀']
  else if c = 'î' then ['i', '̂'] else if c = 'ï' then ['i', '̈']
  else if c = 'ó' then ['o', '́'] else if c = 'ò' then ['o', '̀']
  else if c = 'ô' then ['o', '̂'] else if c = 'õ' then ['o', '̃']
  else if c = 'ö' then ['o', '̈']
  else if c = 'ú' then ['u', '́'] else if c = 'ù' then ['u', '̀']
  else if c = 'û' then ['u', '̂'] else if c = 'ü' then ['u', '̈']
  else if c = 'ç' then ['c', '̧'] else if c = 'ñ' then ['n', '̃']
  else [c]

/-- The combining-mark range `[̀-ͯ]` removed by the source. -/
def isCombiningMark (c : Char) : Bool :=
  0x300 ≤ c.toNat ∧ c.toNat ≤ 0x36f

/-- `.replace(/\s+/g, " ")`: each maximal whitespace run becomes one
space.  The boolean argument records whether the previous character was
part of a whitespace run. -/
def collapseWsGo : Bool → List Char → List Char
  | _, [] => []
  | prevWs, c :: cs =>
    if isWsChar c then
      if prevWs then collapseWsGo true cs else ' ' :: collapseWsGo true cs
    else c :: collapseWsGo false cs

/-- `.trim()`: strip whitespace from both ends. -/
def trimChars (l : List Char) : List Char :=
  ((l.dropWhile isWsChar).reverse.dropWhile isWsChar).reverse

/-- `normalizeString` from `src/utils/formatters`:
lower-case, NFD-normalize, strip combining marks, trim, collapse inner
whitespace runs to single spaces (in that order, as in the source). -/
def normalizeString (s : String) : String :=
  ⟨collapseWsGo false
    (trimChars (((s.data.map jsToLower).flatMap nfdChar).filter
      (fun c => ¬ isCombiningMark c)))⟩

/-- Textbook Levenshtein edit distance (unit insert/delete/substitute
costs); the specification-side meaning of "edit distance". -/
def levDist : List Char → List Char → Nat
  | [], ys => ys.length
  | xs, [] => xs.length
  | x :: xs, y :: ys =>
    if x = y then levDist xs ys
    else 1 + min (levDist xs ys) (min (levDist (x :: xs) ys) (levDist xs (y :: ys)))
termination_by xs ys => xs.length + ys.length
decreasing_by all_goals simp +arith

/-- The inner loop of the source's dynamic-programming matrix
(`for j in 1..s1.length`): given the remaining characters of `s1`, the
remaining entries of the previous row, the diagonal entry
(`matrix[i-1][j-1]`) and the entry just written (`matrix[i][j-1]`),
produce the rest of the current row.  `min (diag+1) (min (left+1) (up+1))`
mirrors `Math.min(matrix[i-1][j-1]+1, matrix[i][j-1]+1, matrix[i-1][j]+1)`. -/
def rowRest (y : Char) : List Char → List Nat → Nat → Nat → List Nat
  | [], _, _, _ => []
  | _ :: _, [], _, _ => []
  | x :: xs, up :: ps, diag, left =>
    let cur := if x = y then diag else min (diag + 1) (min (left + 1) (up + 1))
    cur :: rowRest y xs ps up cur

/-- The outer loop step (`for i in 1..s2.length`): build row `i` of the
matrix from row `i-1`.  `matrix[i][0] = i` is one more than
`matrix[i-1][0]`. -/
def dpStep (s1 : List Char) (prev : List Nat) (y : Char) : List Nat :=
  match prev with
  | [] => []
  | p0 :: ps => (p0 + 1) :: rowRest y s1 ps p0 (p0 + 1)

/-- The full matrix computation of `stringSimilarity`: start with row 0
(`matrix[0][j] = j`), fold the rows over the characters of `s2`, and read
off `matrix[s2.length][s1.length]`. -/
def levDP (s1 s2 : List Char) : Nat :=
  (s2.foldl (dpStep s1) (List.range (s1.length + 1))).getLastD 0

/-- `stringSimilarity` from `src/utils/formatters`: normalize both
strings; equal forms score 1; an empty form scores 0; otherwise
`1 - matrix[s2.length][s1.length] / max(len s1, len s2)`. -/
def stringSimilarity (str1 str2 : String) : ℚ :=
  let s1 := normalizeString str1
  let s2 := normalizeString str2
  if s1 = s2 then 1
  else if s1.length = 0 ∨ s2.length = 0 then 0
  else 1 - (levDP s1.data s2.data : ℚ) / ((max s1.length s2.length : ℕ) : ℚ)

/-- Edit scripts: `Edits a b n` holds when `a` can be turned into `b`
with `n` single-character insertions, deletions or substitutions
(substituting an equal character is allowed but wasteful).  Used to
relate the source's prefix-indexed matrix to `levDist`. -/
inductive Edits : List Char → List Char → Nat → Prop
  | nil : Edits [] [] 0
  | keep (x : Char) {xs ys n} : Edits xs ys n → Edits (x :: xs) (x :: ys) n
  | subst (x y : Char) {xs ys n} : Edits xs ys n → Edits (x :: xs) (y :: ys) (n + 1)
  | del (x : Char) {xs ys n} : Edits xs ys n → Edits (x :: xs) ys (n + 1)
  | ins (y : Char) {xs ys n} : Edits xs ys n → Edits xs (y :: ys) (n + 1)

/-- Proof-support: the tail of a matrix row, as specified — the entry for
column `j` is the distance between (the reversal of) the consumed prefix
of `s1` and the consumed prefix `B` of `s2`; `A` accumulates the reversed
consumed prefix of `s1`. -/
def specRow (B : List Char) : List Char → List Char → List Nat
  | _, [] => []
  | A, x :: xs => levDist (x :: A) B :: specRow B (x :: A) xs

deriving instance DecidableEq for Except

/-! ## Data model (Prisma schema rows, restricted to the attributes the
core reads; optional document/address columns are elided) -/

inductive CustomerType
  | PERSON
  | BUSINESS
deriving DecidableEq

structure Customer where
  id : Nat
  phoneNumber : String
  name : String
  nameNormalized : String
  ctype : CustomerType
deriving DecidableEq

structure Sale where
  id : Nat
  phoneNumber : String
  saleNumber : Nat
  product : String
  quantity : ℚ
  pricePerUnit : ℚ
  totalPrice : ℚ
  saleDate : Int
  salesperson : String
  customerId : Nat
  notes : Option String
deriving DecidableEq

/-- The persisted store: customer and sale tables plus the autoincrement
id source. -/
structure Db where
  customers : List Customer
  sales : List Sale
  nextId : Nat
deriving DecidableEq

/-- The sparse entity bag of an `Intent` (`types.ts`).  The untyped
`newValue` field is not consumed by any modelled flow and is elided. -/
structure Entities where
  product : Option String := none
  quantity : Option ℚ := none
  pricePerUnit : Option ℚ := none
  totalPrice : Option ℚ := none
  saleDate : Option Int := none
  salesperson : Option String := none
  notes : Option String := none
  customerName : Option String := none
  customerType : Option CustomerType := none
  customerDocument : Option String := none
  customerAddress : Option String := none
  saleNumber : Option Nat := none
  fieldToUpdate : Option String := none
  startDate : Option Int := none
  endDate : Option Int := none
deriving DecidableEq

inductive IntentAction
  | CREATE_SALE
  | CONFIRM_ACTION
  | CANCEL_ACTION
  | UPDATE_SALE
  | LIST_SALES
  | DELETE_SALE
  | VIEW_CUSTOMER
  | UPDATE_CUSTOMER
  | UNKNOWN
deriving DecidableEq

structure Intent where
  action : IntentAction
  confidence : ℚ
  entities : Entities
  missingFields : Option (List String) := none
  originalMessage : String := ""
deriving DecidableEq

/-- The `{type, data}` blob stored in `ConversationContext.pendingAction`
(the `type` tag is a plain string in the source). -/
structure PendingAction where
  ptype : String
  data : Entities
deriving DecidableEq

structure ConversationContext where
  phoneNumber : String
  userName : Option String
  lastMessageAt : Int
  pendingAction : Option PendingAction
  pendingConfirmation : Bool
  pendingExpiresAt : Option Int
  lastSaleNumber : Option Nat
  lastCustomerName : Option String
deriving DecidableEq

/-- A plugin reply; the message is modelled as its list of text chunks. -/
structure Response where
  message : List String
  success : Bool
deriving DecidableEq

structure ConfirmOut where
  db : Db
  ctx : ConversationContext
  resp : Response
deriving DecidableEq

structure AgentOut where
  db : Db
  ctx : ConversationContext
  reply : List String
deriving DecidableEq

/-! ## JS truthiness of the optional fields the source tests -/

/-- Truthiness of an optional JS number (`undefined` and `0` are falsy). -/
def truthyQ : Option ℚ → Bool
  | none => false
  | some q => q ≠ 0

/-- Truthiness of an optional JS string (`undefined` and `""` are falsy). -/
def truthyS : Option String → Bool
  | none => false
  | some s => s ≠ ""

/-- Truthiness of an optional numeric id. -/
def truthyN : Option Nat → Bool
  | none => false
  | some n => n ≠ 0

/-! ## Small string helpers used by the plugin -/

/-- `String.prototype.toLowerCase` on a whole string. -/
def jsLowerString (s : String) : String :=
  ⟨s.data.map jsToLower⟩

/-- `String.prototype.includes` (substring test). -/
def strIncludes (needle : List Char) : List Char → Bool
  | [] => needle.isEmpty
  | c :: cs => needle.isPrefixOf (c :: cs) || strIncludes needle cs

/-- Stable insertion of one scored element into a descending-by-score
list: an element moves ahead only of strictly smaller scores, which is
the stable order `Array.prototype.sort` produces with the comparator
`(a, b) => b.similarity - a.similarity`. -/
def insertScoredDesc (x : Customer × ℚ) : List (Customer × ℚ) → List (Customer × ℚ)
  | [] => [x]
  | y :: ys => if x.2 < y.2 then y :: insertScoredDesc x ys else x :: y :: ys

/-- Stable descending sort by similarity score. -/
def sortScoredDesc (l : List (Customer × ℚ)) : List (Customer × ℚ) :=
  l.foldr insertScoredDesc []

/-! ## CustomerService -/

/-- `CustomerService.findSimilarCustomers`: exact lookup on the
`(phoneNumber, nameNormalized)` unique index first; otherwise score every
customer of the partition with `stringSimilarity`, keep scores `> 0.8`,
sort descending, return the top 3. -/
def findSimilarCustomers (db : Db) (phoneNumber name : String) :
    Option Customer × List Customer :=
  let normalized := normalizeString name
  match db.customers.find?
      (fun c => c.phoneNumber == phoneNumber && c.nameNormalized == normalized) with
  | some exact => (some exact, [])
  | none =>
    let allCustomers := db.customers.filter (fun c => c.phoneNumber == phoneNumber)
    let scored := allCustomers.map (fun c => (c, stringSimilarity name c.name))
    let similar :=
      ((sortScoredDesc (scored.filter (fun p => (0.8 : ℚ) < p.2))).take 3).map Prod.fst
    (none, similar)

/-- `CustomerService.createCustomer`: `CreateCustomerSchema.parse`
(phone number at least 10 characters, name between 2 and 100) and insert
with the derived `nameNormalized` column. -/
def createCustomer (db : Db) (phoneNumber name : String) (t : CustomerType) :
    Except Unit (Db × Customer) :=
  if 10 ≤ phoneNumber.length ∧ 2 ≤ name.length ∧ name.length ≤ 100 then
    let c : Customer :=
      ⟨db.nextId, phoneNumber, name, normalizeString name, t⟩
    .ok ({ db with customers := db.customers ++ [c], nextId := db.nextId + 1 }, c)
  else .error ()

/-- Result record of `findOrCreateCustomer`. -/
structure FindOrCreateRes where
  customer : Option Customer
  needsConfirmation : Bool
  similar : List Customer
deriving DecidableEq

/-- `CustomerService.findOrCreateCustomer`: exact match is returned
directly; similar matches are returned as a disambiguation signal with no
customer; otherwise a new customer row is created. -/
def findOrCreateCustomer (db : Db) (phoneNumber name : String) (t : CustomerType) :
    Except Unit (Db × FindOrCreateRes) :=
  match findSimilarCustomers db phoneNumber name with
  | (some exact, _) => .ok (db, ⟨some exact, false, []⟩)
  | (none, similar) =>
    if similar ≠ [] then .ok (db, ⟨none, true, similar⟩)
    else
      match createCustomer db phoneNumber name t with
      | .ok (db', c) => .ok (db', ⟨some c, false, []⟩)
      | .error e => .error e

/-- `CustomerService.getCustomer`: exact lookup by normalized name. -/
def getCustomer (db : Db) (phoneNumber name : String) : Option Customer :=
  let normalized := normalizeString name
  db.customers.find?
    (fun c => c.phoneNumber == phoneNumber && c.nameNormalized == normalized)

/-! ## SalesService -/

/-- The validated payload of `CreateSaleSchema.parse`. -/
structure CreateSaleDTO where
  phoneNumber : String
  product : String
  quantity : ℚ
  pricePerUnit : ℚ
  totalPrice : ℚ
  saleDate : Int
  salesperson : String
  customerName : String
  customerType : CustomerType
  notes : Option String
deriving DecidableEq

/-- `CreateSaleSchema.parse` over the spread `{phoneNumber, ...data}`:
every required field must be present (a `none` field fails the parse, as
`undefined` fails Zod), with the schema's bounds; `saleDate` must not be
after `now`. -/
def parseCreateSale (now : Int) (phoneNumber : String) (e : Entities) :
    Option CreateSaleDTO :=
  match e.product, e.quantity, e.pricePerUnit, e.totalPrice, e.saleDate,
      e.salesperson, e.customerName, e.customerType with
  | some product, some q, some pu, some tp, some d, some sp, some cn, some ct =>
    if 10 ≤ phoneNumber.length ∧
        1 ≤ product.length ∧ product.length ≤ 200 ∧
        0 < q ∧ q ≤ 10000 ∧
        0 ≤ pu ∧ pu ≤ 1000000 ∧
        0 < tp ∧ tp ≤ 1000000 ∧
        d ≤ now ∧
        2 ≤ sp.length ∧ sp.length ≤ 50 ∧
        2 ≤ cn.length ∧ cn.length ≤ 100 ∧
        (∀ ns, e.notes = some ns → ns.length ≤ 1000) then
      some ⟨phoneNumber, product, q, pu, tp, d, sp, cn, ct, e.notes⟩
    else none
  | _, _, _, _, _, _, _, _ => none

/-- Errors thrown by `SalesService.createSale`. -/
inductive SvcError
  | validation
  | customerValidation
  | disambiguation (similar : List Customer)
  | customerFailed
deriving DecidableEq

/-- The sale numbers already present in one partition, in row order. -/
def saleNums (db : Db) (phoneNumber : String) : List Nat :=
  (db.sales.filter (fun s => s.phoneNumber == phoneNumber)).map (fun s => s.saleNumber)

/-- The "current maximum sale number" the transaction reads:
`findFirst(orderBy saleNumber desc)?.saleNumber || 0`. -/
def obsMax (db : Db) (phoneNumber : String) : Nat :=
  (saleNums db phoneNumber).foldr max 0

/-- `SalesService.createSale`: Zod validation, customer resolution (a
disambiguation signal aborts with the candidate list and nothing
written), then the transactional read of the current maximum sale number
and insert of the next number.  The `$transaction` block is modelled as
one atomic step. -/
def createSale (now : Int) (db : Db) (phoneNumber : String) (e : Entities) :
    Except SvcError (Db × Sale × Customer) :=
  match parseCreateSale now phoneNumber e with
  | none => .error .validation
  | some v =>
    match findOrCreateCustomer db v.phoneNumber v.customerName v.customerType with
    | .error _ => .error .customerValidation
    | .ok (db1, res) =>
      match res.customer with
      | none =>
        if res.needsConfirmation then .error (.disambiguation res.similar)
        else .error .customerFailed
      | some customer =>
        let nextSaleNumber := obsMax db1 v.phoneNumber + 1
        let sale : Sale :=
          ⟨db1.nextId, v.phoneNumber, nextSaleNumber, v.product, v.quantity,
            v.pricePerUnit, v.totalPrice, v.saleDate, v.salesperson,
            customer.id, v.notes⟩
        .ok ({ db1 with sales := db1.sales ++ [sale], nextId := db1.nextId + 1 },
          sale, customer)

/-- `SalesService.getSaleByNumber`: unique lookup on
`(phoneNumber, saleNumber)`. -/
def getSaleByNumber (db : Db) (phoneNumber : String) (saleNumber : Nat) : Option Sale :=
  db.sales.find? (fun s => s.phoneNumber == phoneNumber && s.saleNumber == saleNumber)

/-- `SalesService.deleteSale`: Prisma `delete` on the unique key removes
the row and throws when no row matches. -/
def deleteSale (db : Db) (phoneNumber : String) (saleNumber : Nat) : Except Unit Db :=
  let p := fun s : Sale => s.phoneNumber == phoneNumber && s.saleNumber == saleNumber
  if db.sales.any p then .ok { db with sales := db.sales.eraseP p }
  else .error ()

/-- Filters of `SalesService.listSales` (`SaleFiltersSchema`). -/
structure SaleFilters where
  phoneNumber : String
  startDate : Int
  endDate : Int
  customerName : Option String
  salesperson : Option String
deriving DecidableEq

/-- Order used by `listSales`: sale date descending, then sale number
descending. -/
def insertSaleDesc (x : Sale) : List Sale → List Sale
  | [] => [x]
  | y :: ys =>
    if x.saleDate < y.saleDate ∨ (x.saleDate = y.saleDate ∧ x.saleNumber < y.saleNumber)
    then y :: insertSaleDesc x ys
    else x :: y :: ys

/-- `SalesService.listSales`: partition, inclusive date range, optional
exact salesperson match (a falsy salesperson string means no filter) and
optional substring match against the related customer's normalized
name. -/
def listSales (db : Db) (f : SaleFilters) : List Sale :=
  let keep := fun s : Sale =>
    s.phoneNumber == f.phoneNumber &&
    f.startDate ≤ s.saleDate && s.saleDate ≤ f.endDate &&
    (if truthyS f.salesperson then s.salesperson == f.salesperson.getD "" else true) &&
    (if truthyS f.customerName then
      match db.customers.find? (fun c => c.id == s.customerId) with
      | some c => strIncludes (normalizeString (f.customerName.getD "")).data c.nameNormalized.data
      | none => false
    else true)
  (db.sales.filter keep).foldr insertSaleDesc []

/-! ## SalesPlugin -/

/-- `formatDatePT`: the source renders the epoch value as `dd/MM/yyyy`;
the calendar arithmetic is not modelled, the rendering is abstracted to
an injective image of the epoch value. -/
def formatDatePT (t : Int) : String :=
  "[data " ++ toString t ++ "]"

/-- `formatCurrency` on a present value; the `toFixed(2)` decimal
rendering is abstracted to an injective image of the exact value. -/
def fmtCurrency (q : ℚ) : String :=
  "R$ " ++ toString q

/-- `formatCurrency` applied to an optional field:
`undefined.toFixed` throws a `TypeError`. -/
def fmtCurrencyOpt : Option ℚ → Except Unit String
  | none => .error ()
  | some q => .ok (fmtCurrency q)

/-- `SalesPlugin.detectCustomerType`: a business keyword occurring in the
lower-cased name means `BUSINESS`. -/
def detectCustomerType (name : String) : CustomerType :=
  let nameLower := jsLowerString name
  if (["mercado", "padaria", "restaurante", "loja", "bar", "posto",
      "farmacia"].any (fun kw => strIncludes kw.data nameLower.data)) then
    .BUSINESS
  else .PERSON

/-- `SalesPlugin.askForMissingInfo`: a header plus one guidance line per
recognized missing item. -/
def askForMissingInfo (missing : List String) : List String :=
  "Entendi! Preciso de mais informações:" ::
  ((if missing.contains "product" then ["• Qual produto foi vendido?"] else []) ++
   (if missing.contains "customerName" ∨ missing.contains "customer" then
     ["• Para qual cliente?"] else []) ++
   (if missing.contains "preço" ∨ missing.contains "price" then
     ["• Qual foi o valor?"] else []) ++
   (if missing.contains "quantity" then ["• Qual quantidade?"] else []))

/-- `SalesPlugin.formatConfirmation`: the summary shown before a create
is confirmed; `formatCurrency` on an absent `totalPrice` or
`pricePerUnit` throws. -/
def formatConfirmation (e : Entities) : Except Unit (List String) := do
  let dateStr := match e.saleDate with
    | some d => formatDatePT d
    | none => "hoje"
  let qty : ℚ := if truthyQ e.quantity then e.quantity.getD 0 else 1
  let sp := if truthyS e.salesperson then e.salesperson.getD "" else "você"
  let tp ← fmtCurrencyOpt e.totalPrice
  let pu ← fmtCurrencyOpt e.pricePerUnit
  .ok ["Quero confirmar os dados da venda:",
    "📦 Produto: " ++ e.product.getD "undefined",
    "👤 Cliente: " ++ e.customerName.getD "undefined",
    "💰 Valor: " ++ tp ++ " (" ++ pu ++ " x " ++ toString qty ++ ")",
    "📅 Data: " ++ dateStr,
    "👔 Vendedor: " ++ sp,
    "Está tudo correto?",
    "(responda sim para salvar ou me diga o que precisa mudar)"]

/-- The salesperson defaulting at the top of `handleCreate`. -/
def defaultSalesperson (ctx : ConversationContext) (e : Entities) : Entities :=
  if ¬ truthyS e.salesperson ∧ truthyS ctx.userName then
    { e with salesperson := ctx.userName }
  else e

/-- The required-field check of `handleCreate`: product, customer name,
and at least one price. -/
def missingOf (e : Entities) : List String :=
  (if ¬ truthyS e.product then ["product"] else []) ++
  (if ¬ truthyS e.customerName then ["customerName"] else []) ++
  (if ¬ truthyQ e.totalPrice ∧ ¬ truthyQ e.pricePerUnit then ["preço"] else [])

/-- `SalesPlugin.handleCreate`: default the salesperson, check the
required and oracle-flagged fields; when something is missing store the
draft with a 15-minute expiry and ask for the missing items (leaving the
confirmation flag untouched); when complete store the draft, raise the
confirmation flag, refresh the expiry and present the summary (whose
formatting can throw; the store happens first, as in the source). -/
def handleCreate (now : Int) (intent : Intent) (ctx : ConversationContext) :
    ConversationContext × Except Unit Response :=
  let entities := defaultSalesperson ctx intent.entities
  let missing := missingOf entities
  let flagged := intent.missingFields.getD []
  if missing ≠ [] ∨ flagged ≠ [] then
    ({ ctx with
        pendingAction := some ⟨"CREATE_SALE", entities⟩
        pendingExpiresAt := some (now + 15 * 60 * 1000) },
      .ok ⟨askForMissingInfo (missing ++ flagged), true⟩)
  else
    let ctx' := { ctx with
      pendingAction := some ⟨"CREATE_SALE", entities⟩
      pendingConfirmation := true
      pendingExpiresAt := some (now + 15 * 60 * 1000) }
    match formatConfirmation entities with
    | .ok msg => (ctx', .ok ⟨msg, true⟩)
    | .error e => (ctx', .error e)

/-- The defaults `confirmCreate` writes into the draft before calling
`createSale`: sale date `now`, quantity `1`, auto-detected customer
type. -/
def applyCreateDefaults (now : Int) (e : Entities) : Entities :=
  let e1 := match e.saleDate with
    | none => { e with saleDate := some now }
    | some _ => e
  let e2 := if truthyQ e1.quantity then e1 else { e1 with quantity := some 1 }
  if e2.customerType = none then
    let ct := detectCustomerType (jsLowerString (e2.customerName.getD ""))
    { e2 with customerType := some ct }
  else e2

/-- `SalesPlugin.confirmCreate` (with the surrounding catch of
`handleConfirm`): fill defaults into the pending blob (an in-place
mutation, so it survives a failure), call `createSale`; on success clear
the pending fields and remember the sale number and customer name; any
thrown error is caught and becomes the generic failure reply. -/
def confirmCreate (now : Int) (db : Db) (data : Entities)
    (ctx : ConversationContext) : ConfirmOut :=
  let data' := applyCreateDefaults now data
  let ctx1 := { ctx with pendingAction := some ⟨"CREATE_SALE", data'⟩ }
  match createSale now db ctx.phoneNumber data' with
  | .ok (db', sale, customer) =>
    ⟨db',
      { ctx1 with
        pendingAction := none
        pendingConfirmation := false
        pendingExpiresAt := none
        lastSaleNumber := some sale.saleNumber
        lastCustomerName := some customer.name },
      ⟨["✓ Venda #" ++ toString sale.saleNumber ++ " registrada com sucesso!",
        "Você pode:",
        "• Atualizar: atualiza venda " ++ toString sale.saleNumber,
        "• Remover: remove venda " ++ toString sale.saleNumber,
        "• Ver vendas: minhas vendas"], true⟩⟩
  | .error _ => ⟨db, ctx1, ⟨["Erro ao confirmar. Tente novamente."], false⟩⟩

/-- `SalesPlugin.confirmDelete` (with the surrounding catch): delete the
sale and clear the pending fields — and only those; a missing sale
number or a missing row throws, caught into the generic failure reply. -/
def confirmDelete (db : Db) (data : Entities) (ctx : ConversationContext) : ConfirmOut :=
  match data.saleNumber with
  | none => ⟨db, ctx, ⟨["Erro ao confirmar. Tente novamente."], false⟩⟩
  | some n =>
    match deleteSale db ctx.phoneNumber n with
    | .ok db' =>
      ⟨db',
        { ctx with
          pendingAction := none
          pendingConfirmation := false
          pendingExpiresAt := none },
        ⟨["✓ Venda #" ++ toString n ++ " foi removida"], true⟩⟩
    | .error _ => ⟨db, ctx, ⟨["Erro ao confirmar. Tente novamente."], false⟩⟩

/-- `SalesPlugin.handleConfirm`: nothing pending (no action or no flag)
replies "nothing to confirm"; otherwise dispatch on the pending kind
(only creates and deletes are known). -/
def handleConfirm (now : Int) (db : Db) (ctx : ConversationContext) : ConfirmOut :=
  match ctx.pendingAction with
  | none => ⟨db, ctx, ⟨["Não há nada pendente para confirmar."], false⟩⟩
  | some pending =>
    if ¬ ctx.pendingConfirmation then
      ⟨db, ctx, ⟨["Não há nada pendente para confirmar."], false⟩⟩
    else if pending.ptype = "CREATE_SALE" then confirmCreate now db pending.data ctx
    else if pending.ptype = "DELETE_SALE" then confirmDelete db pending.data ctx
    else ⟨db, ctx, ⟨["Ação desconhecida."], false⟩⟩

/-- `SalesPlugin.handleUpdate`: resolve the target number (intent value
or the session's last reference), require a new customer name and an
existing sale, stage an `UPDATE_SALE` confirmation with a 15-minute
expiry. -/
def handleUpdate (now : Int) (db : Db) (intent : Intent)
    (ctx : ConversationContext) : ConversationContext × Response :=
  let saleNumber :=
    if truthyN intent.entities.saleNumber then intent.entities.saleNumber
    else ctx.lastSaleNumber
  if ¬ truthyN saleNumber then
    (ctx, ⟨["Qual venda você quer atualizar? (ex: atualiza venda 44)"], false⟩)
  else
    let n := saleNumber.getD 0
    if truthyS intent.entities.customerName then
      match getSaleByNumber db ctx.phoneNumber n with
      | none => (ctx, ⟨["Venda #" ++ toString n ++ " não encontrada."], false⟩)
      | some sale =>
        let oldName :=
          ((db.customers.find? (fun c => c.id == sale.customerId)).map
            (fun c => c.name)).getD "N/A"
        ({ ctx with
            pendingAction := some ⟨"UPDATE_SALE",
              { saleNumber := some n
                customerName := intent.entities.customerName }⟩
            pendingConfirmation := true
            pendingExpiresAt := some (now + 15 * 60 * 1000) },
          ⟨["Atualizar venda #" ++ toString n ++ "?",
            "De: " ++ oldName,
            "Para: " ++ intent.entities.customerName.getD "",
            "Confirma?"], true⟩)
    else (ctx, ⟨["O que você quer atualizar na venda?"], false⟩)

/-- `SalesPlugin.handleDelete`: resolve the target number, require
existence, stage a `DELETE_SALE` confirmation with a 5-minute expiry and
a summary of the doomed sale. -/
def handleDelete (now : Int) (db : Db) (intent : Intent)
    (ctx : ConversationContext) : ConversationContext × Response :=
  let saleNumber :=
    if truthyN intent.entities.saleNumber then intent.entities.saleNumber
    else ctx.lastSaleNumber
  if ¬ truthyN saleNumber then
    (ctx, ⟨["Qual venda você quer remover? (ex: remove venda 44)"], false⟩)
  else
    let n := saleNumber.getD 0
    match getSaleByNumber db ctx.phoneNumber n with
    | none => (ctx, ⟨["Venda #" ++ toString n ++ " não encontrada."], false⟩)
    | some sale =>
      let customerName :=
        ((db.customers.find? (fun c => c.id == sale.customerId)).map
          (fun c => c.name)).getD "N/A"
      ({ ctx with
          pendingAction := some ⟨"DELETE_SALE", { saleNumber := some n }⟩
          pendingConfirmation := true
          pendingExpiresAt := some (now + 5 * 60 * 1000) },
        ⟨["⚠️ Confirma que quer APAGAR esta venda?",
          "Venda #" ++ toString sale.saleNumber,
          "📦 " ++ sale.product,
          "👤 " ++ customerName,
          "💰 " ++ fmtCurrency sale.totalPrice,
          "📅 " ++ formatDatePT sale.saleDate,
          "Responda sim para confirmar"], true⟩)

/-- `SalesPlugin.formatSalesList` (chunks of the listing reply). -/
def formatSalesList (db : Db) (sales : List Sale) (f : SaleFilters) : List String :=
  let total := sales.foldl (fun acc s => acc + s.totalPrice) 0
  let period := match sales with
    | [] => ""
    | s0 :: _ =>
      formatDatePT (((sales.getLast?).map (fun s => s.saleDate)).getD s0.saleDate) ++
        " a " ++ formatDatePT s0.saleDate
  let salesmanExtra := if truthyS f.salesperson then " - " ++ f.salesperson.getD "" else ""
  ("📊 Vendas " ++ period ++ salesmanExtra ++ " (" ++ toString sales.length ++ " vendas):") ::
  ((sales.take 10).flatMap (fun s =>
    ["#" ++ toString s.saleNumber ++ " - " ++ formatDatePT s.saleDate ++ " - " ++ s.product,
      "Cliente: " ++ (((db.customers.find? (fun c => c.id == s.customerId)).map
        (fun c => c.name)).getD "N/A"),
      "Vendedor: " ++ s.salesperson,
      fmtCurrency s.totalPrice]) ++
    (if 10 < sales.length then ["... e mais " ++ toString (sales.length - 10) ++ " vendas"]
      else []) ++
    ["💰 Total: " ++ fmtCurrency total,
      "Para ver detalhes: info venda X",
      "Para atualizar ou remover: atualiza venda X ou remove venda X"])

/-- `SalesPlugin.handleList`: default the range to the trailing 30 days,
list, and format (an empty result is a normal outcome). -/
def handleList (now : Int) (db : Db) (intent : Intent)
    (ctx : ConversationContext) : ConversationContext × Response :=
  let filters : SaleFilters :=
    ⟨ctx.phoneNumber,
      intent.entities.startDate.getD (now - 30 * 24 * 60 * 60 * 1000),
      intent.entities.endDate.getD now,
      intent.entities.customerName,
      intent.entities.salesperson⟩
  let sales := listSales db filters
  if sales = [] then (ctx, ⟨["Nenhuma venda encontrada nesse período."], true⟩)
  else (ctx, ⟨formatSalesList db sales filters, true⟩)

/-- `SalesPlugin.handleViewCustomer` over `getCustomerStats`: exact
lookup, aggregate count / revenue / mean and the first stored sale (the
optional address and document lines concern columns elided from the
model). -/
def handleViewCustomer (db : Db) (intent : Intent)
    (ctx : ConversationContext) : ConversationContext × Response :=
  if ¬ truthyS intent.entities.customerName then
    (ctx, ⟨["Qual cliente você quer ver?"], false⟩)
  else
    let name := intent.entities.customerName.getD ""
    match getCustomer db ctx.phoneNumber name with
    | none => (ctx, ⟨["Cliente " ++ name ++ " não encontrado."], false⟩)
    | some customer =>
      let sales := db.sales.filter (fun s => s.customerId == customer.id)
      let totalSales := sales.length
      let totalRevenue := sales.foldl (fun acc s => acc + s.totalPrice) 0
      let avgSale : ℚ := if 0 < totalSales then totalRevenue / (totalSales : ℚ) else 0
      (ctx,
        ⟨["📋 " ++ customer.name ++
            (if customer.ctype = .BUSINESS then " (Empresa)" else " (Pessoa)"),
          "📊 Histórico:",
          "• " ++ toString totalSales ++ " vendas realizadas",
          "• Total: " ++ fmtCurrency totalRevenue,
          "• Média: " ++ fmtCurrency avgSale ++ " por venda"] ++
          (match sales.head? with
          | some ls => ["• Última venda: #" ++ toString ls.saleNumber ++ " em " ++
              formatDatePT ls.saleDate]
          | none => []), true⟩)

/-- `SalesPlugin.handle`: the intent switch, with the surrounding catch
that turns any thrown error into the generic failure reply. -/
def handle (now : Int) (db : Db) (intent : Intent)
    (ctx : ConversationContext) : ConversationContext × Response :=
  match intent.action with
  | .CREATE_SALE =>
    match handleCreate now intent ctx with
    | (ctx', .ok resp) => (ctx', resp)
    | (ctx', .error _) => (ctx', ⟨["Desculpe, ocorreu um erro. Tente novamente."], false⟩)
  | .UPDATE_SALE => handleUpdate now db intent ctx
  | .LIST_SALES => handleList now db intent ctx
  | .DELETE_SALE => handleDelete now db intent ctx
  | .VIEW_CUSTOMER => handleViewCustomer db intent ctx
  | _ => (ctx, ⟨["Ação não reconhecida. Como posso ajudar?"], false⟩)

/-- The `UNKNOWN`-intent help reply of `Agent.getHelpMessage`; its
greeting is chosen at random in the source, so the reply is abstracted to
its fixed skeleton. -/
def helpMessage : List String :=
  ["Eu posso:",
    "📝 Registrar vendas",
    "📊 Mostrar vendas",
    "✏️ Atualizar"]

/-- Step 2 of `Agent.processMessage`: clear a pending action whose
expiry is strictly in the past. -/
def expirePending (now : Int) (ctx : ConversationContext) : ConversationContext :=
  match ctx.pendingExpiresAt with
  | some t =>
    if t < now then
      { ctx with
        pendingAction := none
        pendingConfirmation := false
        pendingExpiresAt := none }
    else ctx
  | none => ctx

/-- `Agent.processMessage`, steps 2, 5 and 6: clear an expired pending
action before anything else, route the oracle's intent (confirm and
cancel are handled only under a live confirmation flag), and stamp the
activity time.  The oracle call itself and the greeting shortcut (which
routes nothing and mutates nothing beyond the expiry step) are outside
the model; the intent is a parameter. -/
def agentRoute (now : Int) (db : Db) (ctx : ConversationContext)
    (intent : Intent) : AgentOut :=
  let ctx1 := expirePending now ctx
  let next : Db × ConversationContext × List String :=
    if intent.action = .CONFIRM_ACTION ∧ ctx1.pendingConfirmation then
      let out := handleConfirm now db ctx1
      (out.db, out.ctx, out.resp.message)
    else if intent.action = .CANCEL_ACTION ∧ ctx1.pendingConfirmation then
      (db,
        { ctx1 with
          pendingAction := none
          pendingConfirmation := false
          pendingExpiresAt := none },
        ["Ok, cancelado! Posso ajudar com outra coisa?"])
    else if intent.action = .UNKNOWN then (db, ctx1, helpMessage)
    else
      let out := handle now db intent ctx1
      (db, out.1, out.2.message)
  ⟨next.1, { next.2.1 with lastMessageAt := now }, next.2.2⟩

/-- The DialogueState consistency invariant of the specification: a
raised confirmation flag comes with a pending action and an expiry. -/
def DialogueInv (c : ConversationContext) : Prop :=
  c.pendingConfirmation = true → c.pendingAction ≠ none ∧ c.pendingExpiresAt ≠ none

/-- The price-reconciliation block of `IntentExtractor.processIntent`
(also present verbatim in `MultiLLMExtractor.extractSaleEntities`):
derive the missing price field when the other price and the quantity are
truthy. -/
def reconcilePrices (e : Entities) : Entities :=
  if truthyQ e.totalPrice ∧ truthyQ e.quantity ∧ ¬ truthyQ e.pricePerUnit then
    { e with pricePerUnit := some (e.totalPrice.getD 0 / e.quantity.getD 0) }
  else if truthyQ e.pricePerUnit ∧ truthyQ e.quantity ∧ ¬ truthyQ e.totalPrice then
    { e with totalPrice := some (e.pricePerUnit.getD 0 * e.quantity.getD 0) }
  else e

/-- Concurrent histories over one partition, with the `$transaction`
block of `createSale` as the atomic unit: any interleaving of committed
transactions is one of these serial traces.  A trace records, per
successful create in the partition, the "current maximum" that create
observed; steps that leave the partition's sales unchanged (failed
attempts, which throw before inserting, and operations on other
partitions) are the `unrelated` case. -/
inductive CreateTrace (phoneNumber : String) : Db → Db → List Nat → Prop
  | nil (db : Db) : CreateTrace phoneNumber db db []
  | create {db0 db1 db2 : Db} {obs : List Nat} {now : Int} {e : Entities}
      {sale : Sale} {customer : Customer} :
      CreateTrace phoneNumber db0 db1 obs →
      createSale now db1 phoneNumber e = .ok (db2, sale, customer) →
      CreateTrace phoneNumber db0 db2 (obs ++ [obsMax db1 phoneNumber])
  | unrelated {db0 db1 db2 : Db} {obs : List Nat} :
      CreateTrace phoneNumber db0 db1 obs →
      saleNums db2 phoneNumber = saleNums db1 phoneNumber →
      CreateTrace phoneNumber db0 db2 obs


/-! ## Concrete fixtures used by witnesses and counterexamples -/

def demoPhone : String := "5511999990000"

def fernandaC : Customer := ⟨0, demoPhone, "Fernanda", "fernanda", .PERSON⟩

/-- A partition already holding the customer "Fernanda". -/
def fdb : Db := ⟨[fernandaC], [], 1⟩

/-- A complete sale draft for the customer "Maria". -/
def eKit : Entities :=
  { product := some "kit", quantity := some 1, pricePerUnit := some 40,
    totalPrice := some 40, saleDate := some 0, salesperson := some "Gabriel",
    customerName := some "Maria", customerType := some .PERSON }

/-- The same draft aimed at "Fernandda", a near-duplicate of "Fernanda". -/
def eFernandda : Entities := { eKit with customerName := some "Fernandda" }

/-- A session awaiting confirmation of the "Fernandda" draft. -/
def ctxF : ConversationContext :=
  ⟨demoPhone, some "Gabriel", 0, some ⟨"CREATE_SALE", eFernandda⟩, true,
    some 1000, none, none⟩

def db0 : Db := ⟨[], [], 0⟩

def mariaC : Customer := ⟨0, demoPhone, "Maria", "maria", .PERSON⟩

def sale1 : Sale := ⟨1, demoPhone, 1, "kit", 1, 40, 40, 0, "Gabriel", 0, none⟩

def sale2 : Sale := ⟨2, demoPhone, 2, "kit", 1, 40, 40, 0, "Gabriel", 0, none⟩

def dbA : Db := ⟨[mariaC], [sale1], 2⟩

def dbB : Db := ⟨[mariaC], [sale1, sale2], 3⟩

/-- A prior open draft (product and customer known, price missing). -/
def ePrior : Entities := { product := some "kit", customerName := some "João" }

/-- A drafting session holding `ePrior`. -/
def ctxDraft : ConversationContext :=
  ⟨demoPhone, some "Gabriel", 0, some ⟨"CREATE_SALE", ePrior⟩, false,
    some 1000000000, none, none⟩

/-- A follow-up message carrying only the price. -/
def intentPrice : Intent := ⟨.CREATE_SALE, 1, { totalPrice := some 40 }, some [], "40"⟩

/-- A session awaiting confirmation of the deletion of sale #1, whose
last-referenced sale is also #1. -/
def ctxDel : ConversationContext :=
  ⟨demoPhone, some "Gabriel", 0, some ⟨"DELETE_SALE", { saleNumber := some 1 }⟩,
    true, some 1000, some 1, some "Maria"⟩

/-! ## Levenshtein theory: the source's matrix equals the textbook edit distance -/

theorem levDist_nil_left (b : List Char) : levDist [] b = b.length := by
  cases b <;> simp [levDist]

theorem levDist_nil_right (a : List Char) : levDist a [] = a.length := by
  cases a <;> simp [levDist]

theorem levDist_cons_cons (x y : Char) (xs ys : List Char) :
    levDist (x :: xs) (y :: ys) =
      if x = y then levDist xs ys
      else 1 + min (levDist xs ys)
        (min (levDist (x :: xs) ys) (levDist xs (y :: ys))) := by
  rw [levDist]

theorem levDist_self (a : List Char) : levDist a a = 0 := by
  induction a with
  | nil => simp [levDist]
  | cons x xs ih => rw [levDist_cons_cons]; simp [ih]

/-- Local bounds for `levDist`: prepending one character to either
argument changes the distance by at most one.  All four directions are
proved simultaneously by strong induction on the total length. -/
theorem levDist_bounds :
    ∀ (N : Nat) (a b : List Char), a.length + b.length ≤ N →
      (∀ x, levDist (x :: a) b ≤ 1 + levDist a b) ∧
      (∀ y, levDist a (y :: b) ≤ 1 + levDist a b) ∧
      (∀ y, levDist a b ≤ 1 + levDist a (y :: b)) ∧
      (∀ x, levDist a b ≤ 1 + levDist (x :: a) b) := by
  intro N
  induction N with
  | zero =>
    intro a b h
    cases a with
    | cons x a' => simp at h
    | nil =>
      cases b with
      | cons y b' => simp at h
      | nil =>
        refine ⟨fun x => ?_, fun y => ?_, fun y => ?_, fun x => ?_⟩ <;>
          simp [levDist_nil_left, levDist_nil_right]
  | succ N ih =>
    intro a b h
    refine ⟨fun x => ?_, fun y => ?_, fun y => ?_, fun x => ?_⟩
    · cases b with
      | nil => simp only [levDist_nil_right, List.length_cons]; omega
      | cons y b' =>
        rw [levDist_cons_cons]
        by_cases hxy : x = y
        · rw [if_pos hxy]
          have h3 := (ih a b' (by simp only [List.length_cons] at h; omega)).2.2.1 y
          omega
        · rw [if_neg hxy]
          omega
    · cases a with
      | nil => simp only [levDist_nil_left, List.length_cons]; omega
      | cons x a' =>
        rw [levDist_cons_cons]
        by_cases hxy : x = y
        · rw [if_pos hxy]
          have h4 := (ih a' b (by simp only [List.length_cons] at h; omega)).2.2.2 x
          omega
        · rw [if_neg hxy]
          omega
    · cases a with
      | nil => simp only [levDist_nil_left, List.length_cons]; omega
      | cons x a' =>
        rw [levDist_cons_cons]
        by_cases hxy : x = y
        · rw [if_pos hxy]
          have h1 := (ih a' b (by simp only [List.length_cons] at h; omega)).1 x
          omega
        · rw [if_neg hxy]
          have h1 := (ih a' b (by simp only [List.length_cons] at h; omega)).1 x
          have h3 := (ih a' b (by simp only [List.length_cons] at h; omega)).2.2.1 y
          omega
    · cases b with
      | nil => simp only [levDist_nil_right, List.length_cons]; omega
      | cons y b' =>
        rw [levDist_cons_cons]
        by_cases hxy : x = y
        · rw [if_pos hxy]
          have h2 := (ih a b' (by simp only [List.length_cons] at h; omega)).2.1 y
          omega
        · rw [if_neg hxy]
          have h2 := (ih a b' (by simp only [List.length_cons] at h; omega)).2.1 y
          have h4 := (ih a b' (by simp only [List.length_cons] at h; omega)).2.2.2 x
          omega

theorem levDist_cons_left_le (x : Char) (a b : List Char) :
    levDist (x :: a) b ≤ 1 + levDist a b :=
  (levDist_bounds (a.length + b.length) a b le_rfl).1 x

theorem levDist_cons_right_le (y : Char) (a b : List Char) :
    levDist a (y :: b) ≤ 1 + levDist a b :=
  (levDist_bounds (a.length + b.length) a b le_rfl).2.1 y

/-- Any list is reached from `[]` by pure insertions. -/
theorem edits_from_nil : ∀ b : List Char, Edits [] b b.length := by
  intro b
  induction b with
  | nil => exact .nil
  | cons y b' ihb => exact .ins y ihb

/-- Any list reaches `[]` by pure deletions. -/
theorem edits_to_nil : ∀ a : List Char, Edits a [] a.length := by
  intro a
  induction a with
  | nil => exact .nil
  | cons x a' iha => exact .del x iha

/-- `levDist` is the minimum cost of an edit script: existence half. -/
theorem edits_levDist :
    ∀ (N : Nat) (a b : List Char), a.length + b.length ≤ N →
      Edits a b (levDist a b) := by
  intro N
  induction N with
  | zero =>
    intro a b h
    cases a with
    | cons x a' => simp at h
    | nil =>
      cases b with
      | cons y b' => simp at h
      | nil => simpa [levDist] using Edits.nil
  | succ N ih =>
    intro a b h
    cases a with
    | nil =>
      rw [levDist_nil_left]
      exact edits_from_nil b
    | cons x a' =>
      cases b with
      | nil =>
        rw [levDist_nil_right]
        exact edits_to_nil (x :: a')
      | cons y b' =>
        have hsz : a'.length + b'.length ≤ N := by
          simp only [List.length_cons] at h; omega
        have hsz1 : (x :: a').length + b'.length ≤ N := by
          simp only [List.length_cons] at h ⊢; omega
        have hsz2 : a'.length + (y :: b').length ≤ N := by
          simp only [List.length_cons] at h ⊢; omega
        rw [levDist_cons_cons]
        by_cases hxy : x = y
        · rw [if_pos hxy]; subst hxy
          exact .keep x (ih a' b' hsz)
        · rw [if_neg hxy]
          rcases min_choice (levDist (x :: a') b') (levDist a' (y :: b')) with hmin | hmin <;>
            rcases min_choice (levDist a' b')
              (min (levDist (x :: a') b') (levDist a' (y :: b'))) with hmin2 | hmin2 <;>
            rw [hmin2, Nat.add_comm]
          · exact .subst x y (ih a' b' hsz)
          · rw [hmin]
            exact .ins y (ih (x :: a') b' hsz1)
          · exact .subst x y (ih a' b' hsz)
          · rw [hmin]
            exact .del x (ih a' (y :: b') hsz2)

/-- `levDist` is the minimum cost of an edit script: minimality half. -/
theorem levDist_le_of_edits {a b : List Char} {n : Nat}
    (h : Edits a b n) : levDist a b ≤ n := by
  induction h with
  | nil => simp [levDist]
  | keep x h ih => rw [levDist_cons_cons]; simp [ih]
  | subst x y h ih =>
    rw [levDist_cons_cons]
    by_cases hxy : x = y
    · rw [if_pos hxy]; omega
    · rw [if_neg hxy]; omega
  | del x h ih =>
    calc levDist _ _ ≤ 1 + levDist _ _ := levDist_cons_left_le _ _ _
    _ ≤ _ := by omega
  | ins y h ih =>
    calc levDist _ _ ≤ 1 + levDist _ _ := levDist_cons_right_le _ _ _
    _ ≤ _ := by omega

theorem edits_keep_snoc {a b : List Char} {n : Nat} (c : Char)
    (h : Edits a b n) : Edits (a ++ [c]) (b ++ [c]) n := by
  induction h with
  | nil => exact .keep c .nil
  | keep x h ih => exact .keep x ih
  | subst x y h ih => exact .subst x y ih
  | del x h ih => exact .del x ih
  | ins y h ih => exact .ins y ih

theorem edits_subst_snoc {a b : List Char} {n : Nat} (c d : Char)
    (h : Edits a b n) : Edits (a ++ [c]) (b ++ [d]) (n + 1) := by
  induction h with
  | nil => exact .subst c d .nil
  | keep x h ih => exact .keep x ih
  | subst x y h ih => exact .subst x y ih
  | del x h ih => exact .del x ih
  | ins y h ih => exact .ins y ih

theorem edits_del_snoc {a b : List Char} {n : Nat} (c : Char)
    (h : Edits a b n) : Edits (a ++ [c]) b (n + 1) := by
  induction h with
  | nil => exact .del c .nil
  | keep x h ih => exact .keep x ih
  | subst x y h ih => exact .subst x y ih
  | del x h ih => exact .del x ih
  | ins y h ih => exact .ins y ih

theorem edits_ins_snoc {a b : List Char} {n : Nat} (d : Char)
    (h : Edits a b n) : Edits a (b ++ [d]) (n + 1) := by
  induction h with
  | nil => exact .ins d .nil
  | keep x h ih => exact .keep x ih
  | subst x y h ih => exact .subst x y ih
  | del x h ih => exact .del x ih
  | ins y h ih => exact .ins y ih

/-- Edit scripts survive reversing both words. -/
theorem edits_reverse {a b : List Char} {n : Nat}
    (h : Edits a b n) : Edits a.reverse b.reverse n := by
  induction h with
  | nil => exact .nil
  | keep x h ih => simpa [List.reverse_cons] using edits_keep_snoc x ih
  | subst x y h ih => simpa [List.reverse_cons] using edits_subst_snoc x y ih
  | del x h ih => simpa [List.reverse_cons] using edits_del_snoc x ih
  | ins y h ih => simpa [List.reverse_cons] using edits_ins_snoc y ih

/-- Levenshtein distance is invariant under reversing both words. -/
theorem levDist_reverse (a b : List Char) :
    levDist a.reverse b.reverse = levDist a b := by
  apply le_antisymm
  · exact levDist_le_of_edits (edits_reverse (edits_levDist _ a b le_rfl))
  · have := levDist_le_of_edits
      (edits_reverse (edits_levDist _ a.reverse b.reverse le_rfl))
    simpa using this

/-- The inner loop is correct: from the row for consumed prefix `B` it
produces the row for `y :: B` (prefixes are carried reversed). -/
theorem rowRest_spec (y : Char) (B : List Char) :
    ∀ (xs A : List Char),
      rowRest y xs (specRow B A xs) (levDist A B) (levDist A (y :: B)) =
        specRow (y :: B) A xs := by
  intro xs
  induction xs with
  | nil => intro A; simp [rowRest, specRow]
  | cons x xs' ih =>
    intro A
    rw [specRow, specRow, rowRest]
    have hcur :
        (if x = y then levDist A B
          else min (levDist A B + 1)
            (min (levDist A (y :: B) + 1) (levDist (x :: A) B + 1))) =
          levDist (x :: A) (y :: B) := by
      rw [levDist_cons_cons]
      by_cases hxy : x = y
      · rw [if_pos hxy, if_pos hxy]
      · rw [if_neg hxy, if_neg hxy]
        omega
    simp only [hcur]
    rw [ih (x :: A)]

/-- The outer loop step is correct on specified rows. -/
theorem dpStep_spec (s1 : List Char) (y : Char) (B : List Char) :
    dpStep s1 (levDist [] B :: specRow B [] s1) y =
      levDist [] (y :: B) :: specRow (y :: B) [] s1 := by
  rw [dpStep]
  have h1 : levDist [] B + 1 = levDist [] (y :: B) := by
    simp [levDist_nil_left]
  rw [h1]
  rw [show levDist [] B = levDist ([] : List Char) B from rfl]
  rw [rowRest_spec y B s1 []]

/-- Folding the outer loop over `ys` turns the row for `B` into the row
for `ys.reverse ++ B`. -/
theorem foldl_dpStep (s1 : List Char) :
    ∀ (ys B : List Char),
      ys.foldl (dpStep s1) (levDist [] B :: specRow B [] s1) =
        levDist [] (ys.reverse ++ B) :: specRow (ys.reverse ++ B) [] s1 := by
  intro ys
  induction ys with
  | nil => intro B; simp
  | cons y ys' ih =>
    intro B
    rw [List.foldl_cons, dpStep_spec, ih (y :: B)]
    simp

/-- Row 0 of the matrix is the specified row for the empty prefix. -/
theorem specRow_nil :
    ∀ (xs A : List Char), specRow [] A xs = List.range' (A.length + 1) xs.length := by
  intro xs
  induction xs with
  | nil => intro A; simp [specRow]
  | cons x xs' ih =>
    intro A
    rw [specRow, ih (x :: A), levDist_nil_right]
    simp only [List.length_cons]
    rw [List.range'_succ]

theorem range_eq_row0 (s1 : List Char) :
    List.range (s1.length + 1) = levDist [] [] :: specRow [] [] s1 := by
  rw [specRow_nil s1 []]
  simp [levDist, List.range_eq_range', List.range'_succ]

/-- The last entry of a specified row is the distance for the whole of
`s1`. -/
theorem getLastD_specRow (B : List Char) :
    ∀ (xs A : List Char) (d : Nat),
      (levDist A B :: specRow B A xs).getLastD d = levDist (xs.reverse ++ A) B := by
  intro xs
  induction xs with
  | nil => intro A d; simp [specRow]
  | cons x xs' ih =>
    intro A d
    rw [specRow, List.getLastD_cons, ih (x :: A)]
    simp

/-- The source's matrix computes the Levenshtein distance. -/
theorem levDP_eq_levDist (s1 s2 : List Char) : levDP s1 s2 = levDist s1 s2 := by
  rw [levDP, range_eq_row0, foldl_dpStep s1 s2 [], getLastD_specRow]
  simp [levDist_reverse]

/-! ## Claim C4: the similarity formula -/

/-- Claim C4 (counterexample): the claim also demands similarity `0`
whenever either normalized string is empty, but on two empty strings the
normalized forms are equal and the source returns `1`. -/
theorem stringSimilarity_empty_counterexample :
    normalizeString "" = "" ∧ stringSimilarity "" "" = 1 ∧ stringSimilarity "" "" ≠ 0 := by
  refine ⟨by decide, ?_, ?_⟩ <;> with_unfolding_all decide

/-- Claim C4 (amended): `stringSimilarity a b` equals
`1 − levDist (normalize a) (normalize b) / max (len, len)` whenever at
least one normalized form is nonempty; equal normalized forms score
exactly 1 (including two empty forms, which score 1, not 0); an empty
normalized form against a nonempty one scores 0. -/
theorem stringSimilarity_spec (a b : String) :
    (normalizeString a = normalizeString b → stringSimilarity a b = 1) ∧
    (((normalizeString a).length ≠ 0 ∨ (normalizeString b).length ≠ 0) →
      stringSimilarity a b =
        1 - (levDist (normalizeString a).data (normalizeString b).data : ℚ) /
          ((max (normalizeString a).length (normalizeString b).length : ℕ) : ℚ)) ∧
    ((normalizeString a).length = 0 → (normalizeString b).length ≠ 0 →
      stringSimilarity a b = 0) ∧
    ((normalizeString b).length = 0 → (normalizeString a).length ≠ 0 →
      stringSimilarity a b = 0) := by
  have hlen : ∀ s : String, s.length = s.data.length := fun s => rfl
  refine ⟨?_, ?_, ?_, ?_⟩
  · intro h
    simp only [stringSimilarity]
    rw [if_pos h]
  · intro hne
    by_cases heq : normalizeString a = normalizeString b
    · simp only [stringSimilarity]
      rw [if_pos heq, heq, levDist_self]
      have hM : (normalizeString b).length ≠ 0 := by
        rcases hne with h | h
        · rw [heq] at h; exact h
        · exact h
      simp
    · simp only [stringSimilarity]
      rw [if_neg heq]
      by_cases h0 : (normalizeString a).length = 0 ∨ (normalizeString b).length = 0
      · rw [if_pos h0]
        rcases h0 with h0 | h0
        · have hd : (normalizeString a).data = [] :=
            List.length_eq_zero.mp ((hlen _).symm.trans h0 ▸ rfl)
          have hb : (normalizeString b).length ≠ 0 := by
            intro hb0
            apply heq
            have hdb : (normalizeString b).data = [] := List.length_eq_zero.mp hb0
            cases hnorm : normalizeString a
            cases hnorm2 : normalizeString b
            simp_all
          rw [hd, levDist_nil_left, h0]
          rw [show ((normalizeString b).data.length = (normalizeString b).length) from rfl]
          rw [Nat.zero_max]
          have hb' : (((normalizeString b).length : ℕ) : ℚ) ≠ 0 := Nat.cast_ne_zero.mpr hb
          rw [div_self hb']
          norm_num
        · have hd : (normalizeString b).data = [] := List.length_eq_zero.mp h0
          have ha : (normalizeString a).length ≠ 0 := by
            intro ha0
            apply heq
            have hda : (normalizeString a).data = [] := List.length_eq_zero.mp ha0
            cases hnorm : normalizeString a
            cases hnorm2 : normalizeString b
            simp_all
          rw [hd, levDist_nil_right, h0]
          rw [show ((normalizeString a).data.length = (normalizeString a).length) from rfl]
          rw [Nat.max_zero]
          have ha' : (((normalizeString a).length : ℕ) : ℚ) ≠ 0 := Nat.cast_ne_zero.mpr ha
          rw [div_self ha']
          norm_num
      · rw [if_neg h0, levDP_eq_levDist]
  · intro h0 hb
    have heq : normalizeString a ≠ normalizeString b := by
      intro hcontra
      rw [hcontra] at h0
      exact hb h0
    simp only [stringSimilarity]
    rw [if_neg heq, if_pos (Or.inl h0)]
  · intro h0 ha
    have heq : normalizeString a ≠ normalizeString b := by
      intro hcontra
      rw [hcontra] at ha
      exact ha h0
    simp only [stringSimilarity]
    rw [if_neg heq, if_pos (Or.inr h0)]

theorem stringSimilarity_spec_witness :
    (normalizeString "Fernandda").length ≠ 0 ∧
    stringSimilarity "Fernandda" "Fernanda" =
      1 - (levDist (normalizeString "Fernandda").data (normalizeString "Fernanda").data : ℚ) /
        ((max (normalizeString "Fernandda").length (normalizeString "Fernanda").length : ℕ) : ℚ) :=
  ⟨by decide, (stringSimilarity_spec "Fernandda" "Fernanda").2.1 (Or.inl (by decide))⟩

/-! ## Claim C5: customer resolution -/

theorem mem_insertScoredDesc (x y : Customer × ℚ) (l : List (Customer × ℚ)) :
    x ∈ insertScoredDesc y l ↔ x = y ∨ x ∈ l := by
  induction l with
  | nil => simp [insertScoredDesc]
  | cons z zs ih =>
    rw [insertScoredDesc]
    by_cases h : y.2 < z.2
    · rw [if_pos h]
      simp only [List.mem_cons, ih]
      try tauto
    · rw [if_neg h]
      simp only [List.mem_cons]
      try tauto

theorem mem_sortScoredDesc (x : Customer × ℚ) (l : List (Customer × ℚ)) :
    x ∈ sortScoredDesc l ↔ x ∈ l := by
  induction l with
  | nil => simp [sortScoredDesc]
  | cons z zs ih =>
    rw [sortScoredDesc, List.foldr_cons, mem_insertScoredDesc]
    rw [show zs.foldr insertScoredDesc [] = sortScoredDesc zs from rfl, ih]
    simp

/-- Claim C5: `findOrCreateCustomer` returns the exact match directly
with no confirmation; returns no customer, `needsConfirmation` and the
similar list (each member an existing customer of the partition scoring
above 0.8, at most three of them) when similar but no exact matches
exist; creates a new row only when neither exists. -/
theorem findOrCreateCustomer_spec (db : Db) (phone name : String) (t : CustomerType) :
    (∀ c sim0, findSimilarCustomers db phone name = (some c, sim0) →
      findOrCreateCustomer db phone name t = .ok (db, ⟨some c, false, []⟩)) ∧
    (∀ sim, findSimilarCustomers db phone name = (none, sim) → sim ≠ [] →
      findOrCreateCustomer db phone name t = .ok (db, ⟨none, true, sim⟩) ∧
      sim.length ≤ 3 ∧
      ∀ c ∈ sim, c ∈ db.customers ∧ c.phoneNumber = phone ∧
        (0.8 : ℚ) < stringSimilarity name c.name) ∧
    (findSimilarCustomers db phone name = (none, []) →
      10 ≤ phone.length → 2 ≤ name.length → name.length ≤ 100 →
      findOrCreateCustomer db phone name t = .ok
        ({ db with
            customers := db.customers ++ [⟨db.nextId, phone, name, normalizeString name, t⟩]
            nextId := db.nextId + 1 },
          ⟨some ⟨db.nextId, phone, name, normalizeString name, t⟩, false, []⟩)) ∧
    (∀ db' r, findOrCreateCustomer db phone name t = .ok (db', r) →
      db'.customers ≠ db.customers →
      (findSimilarCustomers db phone name).1 = none ∧
      (findSimilarCustomers db phone name).2 = []) := by
  refine ⟨?_, ?_, ?_, ?_⟩
  · intro c sim0 h
    simp only [findOrCreateCustomer, h]
  · intro sim h hne
    refine ⟨?_, ?_, ?_⟩
    · simp only [findOrCreateCustomer, h]
      rw [if_pos hne]
    · cases hf : db.customers.find?
          (fun c => c.phoneNumber == phone && c.nameNormalized == normalizeString name) with
      | some c => simp [findSimilarCustomers, hf] at h
      | none =>
        simp only [findSimilarCustomers, hf] at h
        have hsim := (Prod.mk.injEq _ _ _ _).mp h |>.2
        rw [← hsim]
        simp only [List.length_map]
        exact le_trans (List.length_take_le _ _) le_rfl
    · intro c hc
      cases hf : db.customers.find?
          (fun c => c.phoneNumber == phone && c.nameNormalized == normalizeString name) with
      | some c0 => simp [findSimilarCustomers, hf] at h
      | none =>
        simp only [findSimilarCustomers, hf] at h
        have hsim := (Prod.mk.injEq _ _ _ _).mp h |>.2
        rw [← hsim] at hc
        obtain ⟨p, hp, rfl⟩ := List.mem_map.mp hc
        have hp' : p ∈ sortScoredDesc (((db.customers.filter
            (fun c => c.phoneNumber == phone)).map
            (fun c => (c, stringSimilarity name c.name))).filter
            (fun p => decide ((0.8 : ℚ) < p.2))) := List.take_subset _ _ hp
        rw [mem_sortScoredDesc] at hp'
        obtain ⟨hpmem, hppred⟩ := List.mem_filter.mp hp'
        obtain ⟨c0, hc0, hpc⟩ := List.mem_map.mp hpmem
        obtain ⟨hc0mem, hc0phone⟩ := List.mem_filter.mp hc0
        refine ⟨?_, ?_, ?_⟩
        · rw [← hpc]; exact hc0mem
        · rw [← hpc]; exact eq_of_beq hc0phone
        · have := of_decide_eq_true hppred
          rw [← hpc] at this ⊢
          exact this
  · intro h h1 h2 h3
    simp only [findOrCreateCustomer, h]
    rw [if_neg (by simp)]
    simp only [createCustomer]
    rw [if_pos ⟨h1, h2, h3⟩]
  · intro db' r h hne
    rcases hf : findSimilarCustomers db phone name with ⟨oc, sim⟩
    cases oc with
    | some c =>
      simp only [findOrCreateCustomer, hf, Except.ok.injEq, Prod.mk.injEq] at h
      exact absurd (congrArg Db.customers h.1).symm hne
    | none =>
      by_cases hsim : sim = []
      · subst hsim
        exact ⟨rfl, rfl⟩
      · simp only [findOrCreateCustomer, hf] at h
        rw [if_pos hsim] at h
        simp only [Except.ok.injEq, Prod.mk.injEq] at h
        exact absurd (congrArg Db.customers h.1).symm hne

theorem findOrCreateCustomer_spec_witness :
    findSimilarCustomers fdb demoPhone "Fernandda" = (none, [fernandaC]) ∧
    ([fernandaC] : List Customer) ≠ [] ∧
    (findOrCreateCustomer fdb demoPhone "Fernandda" .PERSON =
        .ok (fdb, ⟨none, true, [fernandaC]⟩) ∧
      ([fernandaC] : List Customer).length ≤ 3 ∧
      ∀ c ∈ [fernandaC], c ∈ fdb.customers ∧ c.phoneNumber = demoPhone ∧
        (0.8 : ℚ) < stringSimilarity "Fernandda" c.name) :=
  ⟨by with_unfolding_all decide, by decide,
    (findOrCreateCustomer_spec fdb demoPhone "Fernandda" .PERSON).2.1
      [fernandaC] (by with_unfolding_all decide) (by decide)⟩


/-! ## Service-level lemmas shared by several claims -/

/-- Resolution never touches the sales table. -/
theorem findOrCreateCustomer_sales {db : Db} {phone name : String}
    {t : CustomerType} {db1 : Db} {res : FindOrCreateRes}
    (h : findOrCreateCustomer db phone name t = .ok (db1, res)) :
    db1.sales = db.sales := by
  rcases hf : findSimilarCustomers db phone name with ⟨oc, sim⟩
  cases oc with
  | some c =>
    simp only [findOrCreateCustomer, hf, Except.ok.injEq, Prod.mk.injEq] at h
    rw [← h.1]
  | none =>
    by_cases hsim : sim = []
    · subst hsim
      simp only [findOrCreateCustomer, hf] at h
      rw [if_neg (by simp)] at h
      simp only [createCustomer] at h
      by_cases hvalid : 10 ≤ phone.length ∧ 2 ≤ name.length ∧ name.length ≤ 100
      · rw [if_pos hvalid] at h
        simp only [Except.ok.injEq, Prod.mk.injEq] at h
        rw [← h.1]
      · rw [if_neg hvalid] at h
        simp at h
    · simp only [findOrCreateCustomer, hf] at h
      rw [if_pos hsim] at h
      simp only [Except.ok.injEq, Prod.mk.injEq] at h
      rw [← h.1]

/-- Field correspondence of a successful `CreateSaleSchema.parse`. -/
theorem parseCreateSale_fields {now : Int} {phone : String} {e : Entities}
    {dto : CreateSaleDTO} (h : parseCreateSale now phone e = some dto) :
    e.product = some dto.product ∧ e.quantity = some dto.quantity ∧
    e.pricePerUnit = some dto.pricePerUnit ∧ e.totalPrice = some dto.totalPrice ∧
    e.saleDate = some dto.saleDate ∧ e.salesperson = some dto.salesperson ∧
    e.customerName = some dto.customerName ∧ e.customerType = some dto.customerType ∧
    e.notes = dto.notes ∧ dto.phoneNumber = phone ∧
    0 < dto.quantity ∧ 0 < dto.totalPrice ∧ 0 ≤ dto.pricePerUnit ∧
    dto.saleDate ≤ now := by
  simp only [parseCreateSale] at h
  split at h
  · split at h
    · rename_i product q pu tp d sp cn ct hprod hq hpu htp hd hsp hcn hct hcond
      simp only [Option.some.injEq] at h
      subst h
      exact ⟨hprod, hq, hpu, htp, hd, hsp, hcn, hct, rfl, rfl,
        hcond.2.2.2.1, hcond.2.2.2.2.2.2.2.1, hcond.2.2.2.2.2.1,
        hcond.2.2.2.2.2.2.2.2.2.1⟩
    · cases h
  · cases h

/-- `confirmCreate`'s defaults leave a draft that already parses
unchanged. -/
theorem applyCreateDefaults_of_valid {now now' : Int} {phone : String}
    {e : Entities} {dto : CreateSaleDTO}
    (h : parseCreateSale now phone e = some dto) :
    applyCreateDefaults now' e = e := by
  obtain ⟨-, hq, -, -, hd, -, -, hct, -⟩ := parseCreateSale_fields h
  have hqpos := (parseCreateSale_fields h).2.2.2.2.2.2.2.2.2.2.1
  have ht : truthyQ e.quantity = true := by
    rw [hq]
    simp only [truthyQ, decide_eq_true_eq]
    exact ne_of_gt hqpos
  simp only [applyCreateDefaults, hd, ht, if_true, hct]
  simp

/-- Characterization of a successful `createSale`: the validated fields
are stored verbatim, the assigned number is one more than the observed
maximum, and the row is appended to the partition. -/
theorem createSale_ok_spec {now : Int} {db : Db} {phone : String} {e : Entities}
    {db' : Db} {s : Sale} {c : Customer}
    (h : createSale now db phone e = .ok (db', s, c)) :
    ∃ dto, parseCreateSale now phone e = some dto ∧
      s.phoneNumber = phone ∧
      s.quantity = dto.quantity ∧ s.pricePerUnit = dto.pricePerUnit ∧
      s.totalPrice = dto.totalPrice ∧ s.saleDate = dto.saleDate ∧
      s.product = dto.product ∧ s.salesperson = dto.salesperson ∧
      s.saleNumber = obsMax db phone + 1 ∧
      db'.sales = db.sales ++ [s] := by
  simp only [createSale] at h
  split at h
  · cases h
  · rename_i dto hparse
    split at h
    · cases h
    · rename_i db1 res hfoc
      split at h
      · split at h <;> cases h
      · rename_i cust hcust
        simp only [Except.ok.injEq, Prod.mk.injEq] at h
        obtain ⟨hdb, hs, hc⟩ := h
        have hphone : dto.phoneNumber = phone := (parseCreateSale_fields hparse).2.2.2.2.2.2.2.2.2.1
        have hsales : db1.sales = db.sales := findOrCreateCustomer_sales hfoc
        refine ⟨dto, hparse, ?_, ?_, ?_, ?_, ?_, ?_, ?_, ?_, ?_⟩
        · rw [← hs]; exact hphone
        · rw [← hs]
        · rw [← hs]
        · rw [← hs]
        · rw [← hs]
        · rw [← hs]
        · rw [← hs]
        · rw [← hs]
          simp only [obsMax, saleNums]
          rw [hsales, hphone]
        · rw [← hdb, ← hs]
          simp [hsales]

/-- Helper: a similar-but-no-exact resolution returns the disambiguation
signal and leaves the store untouched. -/
theorem findOrCreate_needsConfirmation {db : Db} {phone name : String}
    {t : CustomerType} {sim : List Customer}
    (hres : findSimilarCustomers db phone name = (none, sim)) (hne : sim ≠ []) :
    findOrCreateCustomer db phone name t = .ok (db, ⟨none, true, sim⟩) := by
  simp only [findOrCreateCustomer, hres]
  rw [if_pos hne]

/-! ## Claim C3: disambiguation aborts the sale -/

/-- Claim C3: when the draft validates and the customer name resolves to
similar candidates with no exact match, `createSale` aborts with the
disambiguation failure carrying exactly that candidate list; the
resolution itself wrote nothing, and the confirming caller keeps its
store unchanged (no sale row is inserted). -/
theorem createSale_disambiguation (now : Int) (db : Db) (phone : String)
    (e : Entities) (dto : CreateSaleDTO) (sim : List Customer)
    (hparse : parseCreateSale now phone e = some dto)
    (hres : findSimilarCustomers db dto.phoneNumber dto.customerName = (none, sim))
    (hne : sim ≠ []) :
    createSale now db phone e = .error (.disambiguation sim) ∧
    findOrCreateCustomer db dto.phoneNumber dto.customerName dto.customerType =
      .ok (db, ⟨none, true, sim⟩) ∧
    ∀ ctx : ConversationContext, ctx.phoneNumber = phone →
      (confirmCreate now db e ctx).db = db ∧
      (confirmCreate now db e ctx).resp =
        ⟨["Erro ao confirmar. Tente novamente."], false⟩ := by
  have hfoc := findOrCreate_needsConfirmation (t := dto.customerType) hres hne
  have hcs : createSale now db phone e = .error (.disambiguation sim) := by
    simp only [createSale, hparse, hfoc]
    simp
  refine ⟨hcs, hfoc, ?_⟩
  intro ctx hctx
  have hdef : applyCreateDefaults now e = e := applyCreateDefaults_of_valid hparse
  rw [confirmCreate, hdef, hctx, hcs]
  exact ⟨rfl, rfl⟩

theorem createSale_disambiguation_witness :
    parseCreateSale 0 demoPhone eFernandda = some
      ⟨demoPhone, "kit", 1, 40, 40, 0, "Gabriel", "Fernandda", .PERSON, none⟩ ∧
    findSimilarCustomers fdb demoPhone "Fernandda" = (none, [fernandaC]) ∧
    createSale 0 fdb demoPhone eFernandda = .error (.disambiguation [fernandaC]) :=
  ⟨by decide, by with_unfolding_all decide,
    (createSale_disambiguation 0 fdb demoPhone eFernandda
      ⟨demoPhone, "kit", 1, 40, 40, 0, "Gabriel", "Fernandda", .PERSON, none⟩
      [fernandaC] (by decide) (by with_unfolding_all decide) (by decide)).1⟩

/-! ## Claim C6: price reconciliation -/

/-- Claim C6 (counterexample): with only `totalPrice` given and no
quantity, nothing is derived — the reconciliation block requires a truthy
quantity — and the draft later fails validation, so no sale is stored. -/
theorem reconcilePrices_no_quantity_counterexample :
    truthyQ (Entities.totalPrice { totalPrice := some 40 }) = true ∧
    Entities.pricePerUnit { totalPrice := some 40 } = none ∧
    (reconcilePrices { totalPrice := some 40 }).pricePerUnit = none ∧
    (confirmCreate 0 db0
      { product := some "kit", customerName := some "Maria", totalPrice := some 40 }
      ctxDraft).db = db0 ∧
    (confirmCreate 0 db0
      { product := some "kit", customerName := some "Maria", totalPrice := some 40 }
      ctxDraft).resp = ⟨["Erro ao confirmar. Tente novamente."], false⟩ := by
  refine ⟨?_, ?_, ?_, ?_, ?_⟩ <;> with_unfolding_all decide

/-- Claim C6 (amended): when exactly one of `totalPrice` and
`pricePerUnit` is given (truthy) and the quantity is also given (truthy),
the other price is derived — `pricePerUnit = totalPrice / quantity`,
respectively `totalPrice = pricePerUnit * quantity` — so the reconciled
draft satisfies `totalPrice = pricePerUnit * quantity`; any sale stored
from a draft satisfying that equation satisfies it field-for-field.
Without a truthy quantity no derivation occurs (see the
counterexample). -/
theorem reconcilePrices_spec (e : Entities) (t q p : ℚ) :
    (e.totalPrice = some t → t ≠ 0 → e.quantity = some q → q ≠ 0 →
      ¬ truthyQ e.pricePerUnit →
      (reconcilePrices e).pricePerUnit = some (t / q) ∧
      (reconcilePrices e).totalPrice = some t ∧
      (reconcilePrices e).quantity = some q ∧
      t / q * q = t) ∧
    (e.pricePerUnit = some p → p ≠ 0 → e.quantity = some q → q ≠ 0 →
      ¬ truthyQ e.totalPrice →
      (reconcilePrices e).totalPrice = some (p * q) ∧
      (reconcilePrices e).pricePerUnit = some p ∧
      (reconcilePrices e).quantity = some q) ∧
    (∀ (now : Int) (db : Db) (phone : String) (db' : Db) (s : Sale) (c : Customer),
      createSale now db phone e = .ok (db', s, c) →
      e.totalPrice = some (e.pricePerUnit.getD 0 * e.quantity.getD 0) →
      s.totalPrice = s.pricePerUnit * s.quantity) := by
  refine ⟨?_, ?_, ?_⟩
  · intro ht htne hq hqne hpu
    have hcond : truthyQ e.totalPrice ∧ truthyQ e.quantity ∧ ¬ truthyQ e.pricePerUnit := by
      refine ⟨?_, ?_, hpu⟩
      · rw [ht]; simp only [truthyQ, decide_eq_true_eq]; exact htne
      · rw [hq]; simp only [truthyQ, decide_eq_true_eq]; exact hqne
    simp only [reconcilePrices, if_pos hcond]
    refine ⟨?_, ?_, ?_, div_mul_cancel₀ t hqne⟩ <;> simp [ht, hq]
  · intro hp hpne hq hqne htp
    have hcond1 : ¬ (truthyQ e.totalPrice ∧ truthyQ e.quantity ∧ ¬ truthyQ e.pricePerUnit) := by
      intro hc
      exact htp hc.1
    have hcond : truthyQ e.pricePerUnit ∧ truthyQ e.quantity ∧ ¬ truthyQ e.totalPrice := by
      refine ⟨?_, ?_, htp⟩
      · rw [hp]; simp only [truthyQ, decide_eq_true_eq]; exact hpne
      · rw [hq]; simp only [truthyQ, decide_eq_true_eq]; exact hqne
    simp only [reconcilePrices, if_neg hcond1, if_pos hcond]
    refine ⟨?_, ?_, ?_⟩ <;> simp [hp, hq]
  · intro now db phone db' s c hok hcons
    obtain ⟨dto, hparse, -, hsq, hspu, hstp, -⟩ := createSale_ok_spec hok
    obtain ⟨-, hq', hpu', htp', -⟩ := parseCreateSale_fields hparse
    rw [htp'] at hcons
    rw [hpu', hq'] at hcons
    simp only [Option.getD_some, Option.some.injEq] at hcons
    rw [hstp, hspu, hsq, hcons]

theorem reconcilePrices_spec_witness :
    (40 : ℚ) ≠ 0 ∧ (4 : ℚ) ≠ 0 ∧
    ¬ truthyQ (Entities.pricePerUnit { totalPrice := some 40, quantity := some 4 }) ∧
    ((reconcilePrices { totalPrice := some 40, quantity := some 4 }).pricePerUnit =
        some ((40 : ℚ) / 4) ∧
      (reconcilePrices { totalPrice := some 40, quantity := some 4 }).totalPrice = some 40 ∧
      (reconcilePrices { totalPrice := some 40, quantity := some 4 }).quantity = some 4 ∧
      (40 : ℚ) / 4 * 4 = 40) :=
  ⟨by norm_num, by norm_num, by decide,
    (reconcilePrices_spec { totalPrice := some 40, quantity := some 4 } 40 4 0).1
      rfl (by norm_num) rfl (by norm_num) (by decide)⟩

/-! ## Claim C7: multi-turn drafting -/

/-- Helper: the reply of `askForMissingInfo` holds the product, customer,
price and quantity guidance lines exactly for the corresponding missing
items. -/
theorem askForMissingInfo_lines (l : List String) :
    (("• Qual produto foi vendido?" ∈ askForMissingInfo l) ↔
      l.contains "product" = true) ∧
    (("• Para qual cliente?" ∈ askForMissingInfo l) ↔
      (l.contains "customerName" = true ∨ l.contains "customer" = true)) ∧
    (("• Qual foi o valor?" ∈ askForMissingInfo l) ↔
      (l.contains "preço" = true ∨ l.contains "price" = true)) ∧
    (("• Qual quantidade?" ∈ askForMissingInfo l) ↔
      l.contains "quantity" = true) := by
  by_cases h1 : l.contains "product" = true <;>
    by_cases h2 : l.contains "customerName" = true ∨ l.contains "customer" = true <;>
    by_cases h3 : l.contains "preço" = true ∨ l.contains "price" = true <;>
    by_cases h4 : l.contains "quantity" = true <;>
    simp [askForMissingInfo, h1, h2, h3, h4]

/-- Claim C7 (counterexample to the merge clause): a drafting session
already holding product "kit" and customer "João" receives a follow-up
carrying only the price; `handleCreate` overwrites the stored draft with
the new message's entities, so the prior product and customer are gone
rather than kept as defaults (the merge is delegated to the external
oracle's prompt, not performed by the plugin). -/
theorem handleCreate_no_merge_counterexample :
    ctxDraft.pendingConfirmation = false ∧
    ctxDraft.pendingAction = some ⟨"CREATE_SALE", ePrior⟩ ∧
    ePrior.product = some "kit" ∧
    ePrior.customerName = some "João" ∧
    intentPrice.action = .CREATE_SALE ∧
    intentPrice.entities.totalPrice = some 40 ∧
    (handleCreate 0 intentPrice ctxDraft).1.pendingAction =
      some ⟨"CREATE_SALE",
        { totalPrice := some 40, salesperson := some "Gabriel" }⟩ ∧
    ({ totalPrice := some 40, salesperson := some "Gabriel" } : Entities).product = none ∧
    ({ totalPrice := some 40, salesperson := some "Gabriel" } : Entities).customerName =
      none := by
  refine ⟨rfl, rfl, rfl, rfl, rfl, rfl, ?_, rfl, rfl⟩
  with_unfolding_all decide

/-- Claim C7 (amended): on a `CREATE_SALE` intent in a drafting session
(no live confirmation) with a required or oracle-flagged field missing,
`handleCreate` keeps the confirmation flag down, stores this message's
entities (salesperson defaulted from the sender) as the pending draft —
overwriting, not merging, any prior draft — sets a 15-minute expiry, and
replies with `askForMissingInfo`, which holds one guidance line per
missing item among product / customer / price / quantity. -/
theorem handleCreate_drafting (now : Int) (intent : Intent)
    (ctx : ConversationContext)
    (hpc : ctx.pendingConfirmation = false)
    (hmiss : missingOf (defaultSalesperson ctx intent.entities) ≠ [] ∨
      intent.missingFields.getD [] ≠ []) :
    (handleCreate now intent ctx).1.pendingConfirmation = false ∧
    (handleCreate now intent ctx).1.pendingAction =
      some ⟨"CREATE_SALE", defaultSalesperson ctx intent.entities⟩ ∧
    (handleCreate now intent ctx).1.pendingExpiresAt =
      some (now + 15 * 60 * 1000) ∧
    (handleCreate now intent ctx).2 = .ok
      ⟨askForMissingInfo (missingOf (defaultSalesperson ctx intent.entities) ++
        intent.missingFields.getD []), true⟩ ∧
    (∀ l : List String,
      (("• Qual produto foi vendido?" ∈ askForMissingInfo l) ↔
        l.contains "product" = true) ∧
      (("• Para qual cliente?" ∈ askForMissingInfo l) ↔
        (l.contains "customerName" = true ∨ l.contains "customer" = true)) ∧
      (("• Qual foi o valor?" ∈ askForMissingInfo l) ↔
        (l.contains "preço" = true ∨ l.contains "price" = true)) ∧
      (("• Qual quantidade?" ∈ askForMissingInfo l) ↔
        l.contains "quantity" = true)) := by
  simp only [handleCreate]
  rw [if_pos hmiss]
  exact ⟨hpc, rfl, rfl, rfl, askForMissingInfo_lines⟩

theorem handleCreate_drafting_witness :
    ctxDraft.pendingConfirmation = false ∧
    (missingOf (defaultSalesperson ctxDraft intentPrice.entities) ≠ [] ∨
      intentPrice.missingFields.getD [] ≠ []) ∧
    ((handleCreate 0 intentPrice ctxDraft).1.pendingConfirmation = false ∧
      (handleCreate 0 intentPrice ctxDraft).1.pendingAction =
        some ⟨"CREATE_SALE", defaultSalesperson ctxDraft intentPrice.entities⟩ ∧
      (handleCreate 0 intentPrice ctxDraft).1.pendingExpiresAt =
        some (0 + 15 * 60 * 1000) ∧
      (handleCreate 0 intentPrice ctxDraft).2 = .ok
        ⟨askForMissingInfo (missingOf (defaultSalesperson ctxDraft intentPrice.entities) ++
          intentPrice.missingFields.getD []), true⟩ ∧
      (∀ l : List String,
        (("• Qual produto foi vendido?" ∈ askForMissingInfo l) ↔
          l.contains "product" = true) ∧
        (("• Para qual cliente?" ∈ askForMissingInfo l) ↔
          (l.contains "customerName" = true ∨ l.contains "customer" = true)) ∧
        (("• Qual foi o valor?" ∈ askForMissingInfo l) ↔
          (l.contains "preço" = true ∨ l.contains "price" = true)) ∧
        (("• Qual quantidade?" ∈ askForMissingInfo l) ↔
          l.contains "quantity" = true))) :=
  ⟨rfl, Or.inl (by with_unfolding_all decide),
    handleCreate_drafting 0 intentPrice ctxDraft rfl
      (Or.inl (by with_unfolding_all decide))⟩

/-! ## Claim C8: stale pending confirmations -/

/-- Claim C8 (counterexample to the reply clause): after the expired
pending action is cleared, a confirm intent is routed to the plugin's
default branch, which replies "Ação não reconhecida", not the
handleConfirm reply "Não há nada pendente para confirmar." (the
controller's guard keeps `handleConfirm` from running at all). -/
theorem agentRoute_stale_confirm_counterexample :
    ctxF.pendingExpiresAt = some 1000 ∧ (1000 : Int) < 2000 ∧
    ctxF.pendingConfirmation = true ∧
    (agentRoute 2000 fdb ctxF ⟨.CONFIRM_ACTION, 1, {}, none, "sim"⟩).reply =
      ["Ação não reconhecida. Como posso ajudar?"] ∧
    (agentRoute 2000 fdb ctxF ⟨.CONFIRM_ACTION, 1, {}, none, "sim"⟩).reply ≠
      ["Não há nada pendente para confirmar."] ∧
    (agentRoute 2000 fdb ctxF ⟨.CONFIRM_ACTION, 1, {}, none, "sim"⟩).db = fdb := by
  refine ⟨rfl, by decide, rfl, ?_, ?_, ?_⟩ <;> with_unfolding_all decide

/-- Claim C8 (amended): a pending confirmation whose expiry is in the
past is cleared before intent routing; a subsequent confirm intent then
finds nothing pending, commits nothing (the store is returned untouched),
and yields the plugin's non-committal default reply — the literal
"nothing to confirm" reply would only arise inside `handleConfirm`,
which the controller's guard no longer reaches. -/
theorem agentRoute_expired_confirm (now t : Int) (db : Db)
    (ctx : ConversationContext) (intent : Intent)
    (hexp : ctx.pendingExpiresAt = some t) (ht : t < now)
    (hact : intent.action = .CONFIRM_ACTION) :
    (agentRoute now db ctx intent).db = db ∧
    (agentRoute now db ctx intent).ctx.pendingAction = none ∧
    (agentRoute now db ctx intent).ctx.pendingConfirmation = false ∧
    (agentRoute now db ctx intent).ctx.pendingExpiresAt = none ∧
    (agentRoute now db ctx intent).reply =
      ["Ação não reconhecida. Como posso ajudar?"] := by
  simp only [agentRoute, expirePending, hexp]
  rw [if_pos ht]
  simp only [hact, handle]
  simp

theorem agentRoute_expired_confirm_witness :
    ctxF.pendingExpiresAt = some 1000 ∧ (1000 : Int) < 2000 ∧
    ((agentRoute 2000 fdb ctxF ⟨.CONFIRM_ACTION, 1, {}, none, "sim"⟩).db = fdb ∧
      (agentRoute 2000 fdb ctxF ⟨.CONFIRM_ACTION, 1, {}, none, "sim"⟩).ctx.pendingAction =
        none ∧
      (agentRoute 2000 fdb ctxF
        ⟨.CONFIRM_ACTION, 1, {}, none, "sim"⟩).ctx.pendingConfirmation = false ∧
      (agentRoute 2000 fdb ctxF
        ⟨.CONFIRM_ACTION, 1, {}, none, "sim"⟩).ctx.pendingExpiresAt = none ∧
      (agentRoute 2000 fdb ctxF ⟨.CONFIRM_ACTION, 1, {}, none, "sim"⟩).reply =
        ["Ação não reconhecida. Como posso ajudar?"]) :=
  ⟨rfl, by decide,
    agentRoute_expired_confirm 2000 1000 fdb ctxF ⟨.CONFIRM_ACTION, 1, {}, none, "sim"⟩
      rfl (by decide) rfl⟩

/-! ## Claim C9: disambiguation at confirmation time is swallowed -/

/-- Claim C9 (code evaluation at the failing input): confirming a
pending draft for "Fernandda" while the partition holds the similar
customer "Fernanda" makes `createSale` throw the structured
disambiguation error, but `handleConfirm`'s catch-all turns it into the
generic failure reply; the candidate list is not re-surfaced. -/
theorem handleConfirm_swallows_disambiguation :
    ctxF.pendingConfirmation = true ∧
    ctxF.pendingAction = some ⟨"CREATE_SALE", eFernandda⟩ ∧
    createSale 0 fdb demoPhone (applyCreateDefaults 0 eFernandda) =
      .error (.disambiguation [fernandaC]) ∧
    (handleConfirm 0 fdb ctxF).resp =
      ⟨["Erro ao confirmar. Tente novamente."], false⟩ ∧
    (handleConfirm 0 fdb ctxF).db = fdb := by
  refine ⟨rfl, rfl, ?_, ?_, ?_⟩ <;> with_unfolding_all decide

/-! ## Claim C10: confirmed deletion clears only the pending fields -/

/-- Helper: erasing the unique matching row leaves no row for the
predicate to find. -/
theorem find?_eraseP_of_unique (p : α → Bool) :
    ∀ l : List α, (l.filter p).length ≤ 1 → (l.eraseP p).find? p = none := by
  intro l
  induction l with
  | nil => simp
  | cons x xs ih =>
    intro h
    by_cases hx : p x = true
    · rw [List.eraseP_cons_of_pos hx]
      rw [List.filter_cons_of_pos hx] at h
      simp only [List.length_cons] at h
      have hnil : xs.filter p = [] := by
        cases hfil : xs.filter p with
        | nil => rfl
        | cons z zs => rw [hfil] at h; simp at h
      exact List.find?_eq_none.mpr fun x hx1 hpx =>
        (List.filter_eq_nil_iff.mp hnil x hx1) hpx
    · rw [List.eraseP_cons_of_neg (by simpa using hx)]
      rw [List.filter_cons_of_neg (by simpa using hx)] at h
      rw [List.find?_cons_of_neg _ (by simpa using hx)]
      exact ih h

/-- Claim C10: confirming a deletion clears the pending action, flag and
expiry but leaves `lastSaleNumber` and `lastCustomerName` untouched, so
the session may keep referring to the just-deleted sale number, which no
longer resolves. -/
theorem confirmDelete_frame (db : Db) (ctx : ConversationContext)
    (e : Entities) (n : Nat)
    (hn : e.saleNumber = some n)
    (huniq : (db.sales.filter
      (fun s => s.phoneNumber == ctx.phoneNumber && s.saleNumber == n)).length ≤ 1)
    (hex : db.sales.any
      (fun s => s.phoneNumber == ctx.phoneNumber && s.saleNumber == n) = true) :
    (confirmDelete db e ctx).ctx.pendingAction = none ∧
    (confirmDelete db e ctx).ctx.pendingConfirmation = false ∧
    (confirmDelete db e ctx).ctx.pendingExpiresAt = none ∧
    (confirmDelete db e ctx).ctx.lastSaleNumber = ctx.lastSaleNumber ∧
    (confirmDelete db e ctx).ctx.lastCustomerName = ctx.lastCustomerName ∧
    getSaleByNumber (confirmDelete db e ctx).db ctx.phoneNumber n = none ∧
    (ctx.lastSaleNumber = some n →
      (confirmDelete db e ctx).ctx.lastSaleNumber = some n) := by
  simp only [confirmDelete, hn, deleteSale]
  rw [if_pos hex]
  refine ⟨rfl, rfl, rfl, rfl, rfl, ?_, fun h => h⟩
  simp only [getSaleByNumber]
  exact find?_eraseP_of_unique _ _ huniq

theorem confirmDelete_frame_witness :
    (Entities.saleNumber { saleNumber := some 1 } = some 1) ∧
    (dbA.sales.filter
      (fun s => s.phoneNumber == ctxDel.phoneNumber && s.saleNumber == 1)).length ≤ 1 ∧
    dbA.sales.any
      (fun s => s.phoneNumber == ctxDel.phoneNumber && s.saleNumber == 1) = true ∧
    ((confirmDelete dbA { saleNumber := some 1 } ctxDel).ctx.pendingAction = none ∧
      (confirmDelete dbA { saleNumber := some 1 } ctxDel).ctx.pendingConfirmation = false ∧
      (confirmDelete dbA { saleNumber := some 1 } ctxDel).ctx.pendingExpiresAt = none ∧
      (confirmDelete dbA { saleNumber := some 1 } ctxDel).ctx.lastSaleNumber =
        ctxDel.lastSaleNumber ∧
      (confirmDelete dbA { saleNumber := some 1 } ctxDel).ctx.lastCustomerName =
        ctxDel.lastCustomerName ∧
      getSaleByNumber (confirmDelete dbA { saleNumber := some 1 } ctxDel).db
        ctxDel.phoneNumber 1 = none ∧
      (ctxDel.lastSaleNumber = some 1 →
        (confirmDelete dbA { saleNumber := some 1 } ctxDel).ctx.lastSaleNumber =
          some 1)) :=
  ⟨rfl, by with_unfolding_all decide, by with_unfolding_all decide,
    confirmDelete_frame dbA ctxDel { saleNumber := some 1 } 1 rfl
      (by with_unfolding_all decide) (by with_unfolding_all decide)⟩

/-! ## Claim C1: collision-free sequential numbering -/

/-- A successful create appends exactly `observed maximum + 1` to the
partition's numbers. -/
theorem createSale_saleNums {now : Int} {db : Db} {phone : String} {e : Entities}
    {db' : Db} {s : Sale} {c : Customer}
    (h : createSale now db phone e = .ok (db', s, c)) :
    saleNums db' phone = saleNums db phone ++ [obsMax db phone + 1] := by
  obtain ⟨dto, -, hphone, -, -, -, -, -, -, hnum, hsales⟩ := createSale_ok_spec h
  simp only [saleNums, hsales, List.filter_append, List.map_append]
  congr 1
  rw [List.filter_cons, if_pos (by simp [hphone])]
  simp [hnum]

theorem foldr_max_range' :
    ∀ (n s b : Nat), (List.range' s n).foldr max b =
      if n = 0 then b else max b (s + n - 1) := by
  intro n
  induction n with
  | zero => intro s b; simp
  | succ n ih =>
    intro s b
    rw [List.range'_succ, List.foldr_cons, ih]
    by_cases hn : n = 0
    · subst hn; simp; omega
    · rw [if_neg hn, if_neg (by omega)]
      omega

/-- Claim C1: over any serial trace of atomic create transactions in one
partition — successful creates, failed attempts and other-partition
operations interleaved in any order — starting from an empty partition,
the sale numbers after `N` successful creates are exactly `1..N` in
order, with no duplicates and no gaps, and the `N` creates observed the
pairwise-distinct current maxima `0, 1, ..., N-1` (no two creates
observe the same maximum). -/
theorem createTrace_spec {phone : String} {db0 db : Db} {obs : List Nat}
    (tr : CreateTrace phone db0 db obs) (h0 : saleNums db0 phone = []) :
    saleNums db phone = List.range' 1 obs.length ∧
    obs = List.range obs.length ∧
    obs.Nodup ∧ (saleNums db phone).Nodup ∧
    (∀ m, m ∈ saleNums db phone ↔ 1 ≤ m ∧ m ≤ obs.length) := by
  revert h0
  induction tr with
  | nil =>
    intro h0
    rw [h0]
    refine ⟨by simp, by simp, by simp, by simp, ?_⟩
    intro m
    simp
    omega
  | create tr hok ih =>
    rename_i db1 db2 obs now e sale customer
    intro h0
    obtain ⟨hnums, hobs, hnodup, hnodup2, hmem⟩ := ih h0
    have hmax : obsMax db1 phone = obs.length := by
      simp only [obsMax, hnums, foldr_max_range']
      by_cases h : obs.length = 0
      · simp [h]
      · rw [if_neg h]; omega
    have happ := createSale_saleNums hok
    rw [hnums, hmax] at happ
    have hconcat : List.range' 1 obs.length ++ [obs.length + 1] =
        List.range' 1 (obs.length + 1) := by
      rw [List.range'_1_concat]
      simp [Nat.add_comm]
    rw [hconcat] at happ
    have hlen : (obs ++ [obsMax db1 phone]).length = obs.length + 1 := by simp
    refine ⟨?_, ?_, ?_, ?_, ?_⟩
    · rw [happ, hlen]
    · rw [hlen, hmax, List.range_succ]
      rw [← hobs]
    · rw [hmax, hobs, List.length_range]
      rw [← List.range_succ]
      exact List.nodup_range _
    · rw [happ]
      exact List.nodup_range' _ _
    · intro m
      rw [happ, hlen, List.mem_range'_1]
      omega
  | unrelated tr hsame ih =>
    intro h0
    obtain ⟨hnums, hobs, hnodup, hnodup2, hmem⟩ := ih h0
    rw [hsame]
    exact ⟨hnums, hobs, hnodup, hnodup2, hmem⟩

theorem createTrace_spec_witness :
    saleNums db0 demoPhone = [] ∧
    (saleNums dbB demoPhone = List.range' 1 2 ∧
      ([0, 1] : List Nat) = List.range 2 ∧
      ([0, 1] : List Nat).Nodup ∧ (saleNums dbB demoPhone).Nodup ∧
      (∀ m, m ∈ saleNums dbB demoPhone ↔ 1 ≤ m ∧ m ≤ 2)) := by
  have h1 : createSale 0 db0 demoPhone eKit = .ok (dbA, sale1, mariaC) := by
    with_unfolding_all decide
  have h2 : createSale 5 dbA demoPhone eKit = .ok (dbB, sale2, mariaC) := by
    with_unfolding_all decide
  have tr : CreateTrace demoPhone db0 dbB [0, 1] :=
    CreateTrace.create (CreateTrace.create (CreateTrace.nil db0) h1) h2
  exact ⟨rfl, createTrace_spec tr rfl⟩

/-! ## Claim C2: the DialogueState consistency invariant -/

theorem inv_handleCreate (now : Int) (intent : Intent) (ctx : ConversationContext)
    (_h : DialogueInv ctx) : DialogueInv (handleCreate now intent ctx).1 := by
  simp only [handleCreate]
  split
  · intro hpc
    simp
  · split
    · intro hpc
      simp
    · intro hpc
      simp

theorem inv_confirmCreate (now : Int) (db : Db) (data : Entities)
    (ctx : ConversationContext) (h : DialogueInv ctx) :
    DialogueInv (confirmCreate now db data ctx).ctx := by
  simp only [confirmCreate]
  split
  · intro hpc
    simp at hpc
  · intro hpc
    simp only at hpc ⊢
    simp
    exact (h hpc).2

theorem inv_confirmDelete (db : Db) (data : Entities)
    (ctx : ConversationContext) (h : DialogueInv ctx) :
    DialogueInv (confirmDelete db data ctx).ctx := by
  simp only [confirmDelete]
  split
  · exact h
  · split
    · intro hpc
      simp at hpc
    · exact h

theorem inv_handleConfirm (now : Int) (db : Db) (ctx : ConversationContext)
    (h : DialogueInv ctx) : DialogueInv (handleConfirm now db ctx).ctx := by
  simp only [handleConfirm]
  split
  · exact h
  · split
    · exact h
    · split
      · exact inv_confirmCreate now db _ ctx h
      · split
        · exact inv_confirmDelete db _ ctx h
        · exact h

theorem inv_handleUpdate (now : Int) (db : Db) (intent : Intent)
    (ctx : ConversationContext) (h : DialogueInv ctx) :
    DialogueInv (handleUpdate now db intent ctx).1 := by
  simp only [handleUpdate]
  repeat' split
  all_goals first
    | exact h
    | (intro hpc; simp)

theorem inv_handleDelete (now : Int) (db : Db) (intent : Intent)
    (ctx : ConversationContext) (h : DialogueInv ctx) :
    DialogueInv (handleDelete now db intent ctx).1 := by
  simp only [handleDelete]
  repeat' split
  all_goals first
    | exact h
    | (intro hpc; simp)

theorem inv_handle (now : Int) (db : Db) (intent : Intent)
    (ctx : ConversationContext) (h : DialogueInv ctx) :
    DialogueInv (handle now db intent ctx).1 := by
  simp only [handle]
  split
  · rename_i heq
    split
    · rename_i ctx' resp hmatch
      have := inv_handleCreate now intent ctx h
      rw [hmatch] at this
      exact this
    · rename_i ctx' err hmatch
      have := inv_handleCreate now intent ctx h
      rw [hmatch] at this
      exact this
  · exact inv_handleUpdate now db intent ctx h
  · simp only [handleList]
    split
    · exact h
    · exact h
  · exact inv_handleDelete now db intent ctx h
  · simp only [handleViewCustomer]
    split
    · exact h
    · split
      · exact h
      · exact h
  · exact h

/-- Claim C2: every modelled operation on DialogueState — drafting,
staging an update or deletion, confirming a create or delete (successes
and caught failures alike), cancelling, expiring, and the plugin's
generic error paths — preserves the invariant that a raised confirmation
flag comes with a pending action and an expiry. -/
theorem dialogueInv_preserved (now : Int) (db : Db) (intent : Intent)
    (ctx : ConversationContext) (h : DialogueInv ctx) :
    DialogueInv (handle now db intent ctx).1 ∧
    DialogueInv (handleConfirm now db ctx).ctx ∧
    DialogueInv (agentRoute now db ctx intent).ctx := by
  refine ⟨inv_handle now db intent ctx h, inv_handleConfirm now db ctx h, ?_⟩
  have hinv1 : DialogueInv (expirePending now ctx) := by
    simp only [expirePending]
    split
    · split
      · intro hpc
        simp at hpc
      · exact h
    · exact h
  have hlast : ∀ c : ConversationContext,
      DialogueInv c → DialogueInv { c with lastMessageAt := now } := by
    intro c hc hpc
    simp only at hpc
    exact hc hpc
  simp only [agentRoute]
  split
  · exact hlast _ (inv_handleConfirm now db (expirePending now ctx) hinv1)
  · split
    · intro hpc
      simp at hpc
    · split
      · exact hlast _ hinv1
      · exact hlast _ (inv_handle now db intent (expirePending now ctx) hinv1)

theorem dialogueInv_preserved_witness :
    DialogueInv ctxF ∧
    (DialogueInv (handle 0 fdb ⟨.CREATE_SALE, 1, {}, none, ""⟩ ctxF).1 ∧
      DialogueInv (handleConfirm 0 fdb ctxF).ctx ∧
      DialogueInv (agentRoute 0 fdb ctxF ⟨.CREATE_SALE, 1, {}, none, ""⟩).ctx) :=
  ⟨fun _ => ⟨by decide, by decide⟩,
    dialogueInv_preserved 0 fdb ⟨.CREATE_SALE, 1, {}, none, ""⟩ ctxF
      (fun _ => ⟨by decide, by decide⟩)⟩
